import Mathlib

/-!
Verification development for the tract core: symbolic dimension algebra
(`core/src/dim/tree.rs`), the pulse `Delay` operator
(`core/src/pulse/delay.rs`), model patches (`core/src/model/patch.rs`),
the model translator (`core/src/model/translator.rs`), `Pad` pulsification
(`core/src/ops/array/pad.rs`), `Slice` and `Downsample` decluttering
(`core/src/ops/array/slice.rs`, `core/src/ops/downsample/*.rs`) and the
`Dummy` op (`core/src/ops/dummy.rs`).

Machine integers are modelled as `Int` (for `i32`) and `Nat` (for
`usize`/`u32`); none of the claims exercises wrap-around. Rust's `i32`
division truncates toward zero, which is `Int.tdiv` here. Fallible Rust code
(`TractResult`) is modelled with `Except String`.
-/

namespace Tract

/-- `TDim` from `core/src/dim/tree.rs`:
`Sym(char) | Val(i32) | Add(Vec<TDim>) | Mul(i32, Box<TDim>) | Div(Box<TDim>, u32)`. -/
inductive TDim where
  | Sym : Char → TDim
  | Val : Int → TDim
  | Add : List TDim → TDim
  | Mul : Int → TDim → TDim
  | Div : TDim → Nat → TDim
  deriving Repr, Inhabited

namespace TDim

mutual
/-- Structural equality test, as Rust's derived `PartialEq` on `TDim`. -/
def beq : TDim → TDim → Bool
  | Sym a, Sym b => a == b
  | Val a, Val b => a == b
  | Add a, Add b => beqList a b
  | Mul p a, Mul q b => p == q && beq a b
  | Div a p, Div b q => beq a b && p == q
  | _, _ => false
/-- Elementwise equality of `Vec<TDim>`. -/
def beqList : List TDim → List TDim → Bool
  | [], [] => true
  | a :: as_, b :: bs => beq a b && beqList as_ bs
  | _, _ => false
end


mutual
/-- Rust's derived `Ord` on `TDim`: variants compare by declaration order
(`Sym < Val < Add < Mul < Div`), then fields lexicographically
(`Vec` compares lexicographically, tuples left to right). -/
def cmp : TDim → TDim → Ordering
  | Sym a, Sym b => compare a b
  | Sym _, _ => .lt
  | Val _, Sym _ => .gt
  | Val a, Val b => compare a b
  | Val _, _ => .lt
  | Add _, Sym _ => .gt
  | Add _, Val _ => .gt
  | Add a, Add b => cmpList a b
  | Add _, _ => .lt
  | Mul _ _, Sym _ => .gt
  | Mul _ _, Val _ => .gt
  | Mul _ _, Add _ => .gt
  | Mul p a, Mul q b => (compare p q).then (cmp a b)
  | Mul _ _, Div _ _ => .lt
  | Div a p, Div b q => (cmp a b).then (compare p q)
  | Div _ _, _ => .gt
/-- Lexicographic comparison of `Vec<TDim>`. -/
def cmpList : List TDim → List TDim → Ordering
  | [], [] => .eq
  | [], _ :: _ => .lt
  | _ :: _, [] => .gt
  | a :: as_, b :: bs => (cmp a b).then (cmpList as_ bs)
end

mutual
/-- `TDim::cost` (`dim/tree.rs`): `Sym|Val = 1`, `Add = 2·Σcost`,
`Div = 3·cost`, `Mul = 2·cost`. -/
def cost : TDim → Nat
  | Sym _ => 1
  | Val _ => 1
  | Add terms => 2 * costSum terms
  | Div a _ => 3 * cost a
  | Mul _ a => 2 * cost a
/-- `terms.iter().map(TDim::cost).sum()`. -/
def costSum : List TDim → Nat
  | [] => 0
  | t :: ts => cost t + costSum ts
end

mutual
/-- `TDim::gcd` (`dim/tree.rs`). On `Add([])` the source unwraps a `None`
and aborts; that case is unreachable from `reduce` and mapped to 1 here. -/
def gcd : TDim → Nat
  | Val v => v.natAbs
  | Sym _ => 1
  | Add [] => 1
  | Add (head :: tail) => gcdFold (gcd head) tail
  | Mul p a => gcd a * p.natAbs
  | Div a q => if gcd a % q == 0 then gcd a / q else 1
/-- `tail.iter().fold(head.gcd(), |a, b| a.gcd(&b.gcd()))`. -/
def gcdFold : Nat → List TDim → Nat
  | acc, [] => acc
  | acc, b :: bs => gcdFold (Nat.gcd acc (gcd b)) bs
end

mutual
/-- `TDim::div` (`dim/tree.rs`), exact integer division helper used by
`wiggle`. On `Sym` the source aborts; unreachable because `div` is only
called on terms whose `gcd` is a multiple of `d` (so `Sym` only with
`d == 1`, short-circuited). Mapped to the identity here. -/
def div : TDim → Nat → TDim
  | t, 1 => t
  | Val v, d => Val (v.tdiv d)
  | Sym s, _ => Sym s
  | Add terms, d => Add (divList terms d)
  | Mul p a, d =>
    if p == (d : Int) then a
    else
      let g := Nat.gcd p.natAbs d
      Mul (p.tdiv g) (div a (d / g))
  | Div a q, d => Div a (q * d)
/-- `terms.iter().map(|t| t.div(d))`. -/
def divList : List TDim → Nat → List TDim
  | [], _ => []
  | t :: ts, d => div t d :: divList ts d
end

mutual
/-- `TDim::eval_with` (`dim/tree.rs`). Rust `i32` division truncates toward
zero (`Int.tdiv`). -/
def eval_with (values : Char → Option Int) : TDim → Except String Int
  | Sym v =>
    match values v with
    | some x => .ok x
    | none => .error "Unresolved value"
  | Val v => .ok v
  | Add terms => evalSum values 0 terms
  | Div a q => do pure ((← eval_with values a).tdiv q)
  | Mul p a => do pure (p * (← eval_with values a))
/-- `terms.iter().try_fold(0i32, |acc, it| acc + it.eval_with(values))`. -/
def evalSum (values : Char → Option Int) : Int → List TDim → Except String Int
  | acc, [] => .ok acc
  | acc, t :: ts => do evalSum values (acc + (← eval_with values t)) ts
end

/-- `num_integer::Integer::div_ceil` as used in `simplify` (both arguments
positive at the call site). -/
def intDivCeil (x y : Int) : Int := (x + y - 1).tdiv y

/-- Association-list stand-in for the `HashMap<TDim, i32>` of
`simplify`'s `Add` branch: `*map.entry(k).or_insert(0) += v`. -/
def mapAdd : List (TDim × Int) → TDim → Int → List (TDim × Int)
  | [], k, v => [(k, v)]
  | (k2, v2) :: rest, k, v =>
    if beq k2 k then (k2, v2 + v) :: rest else (k2, v2) :: mapAdd rest k v

/-- Insertion of one element into a list sorted by `cmp` (used to model
`members.sort()`; Rust's stable sort and insertion sort agree because
`cmp` is a total order whose ties are structurally equal elements). -/
def insertSorted (x : TDim) : List TDim → List TDim
  | [] => [x]
  | y :: ys => if cmp x y == .gt then y :: insertSorted x ys else x :: y :: ys

/-- `members.sort()` / `sorted()`. -/
def sortList : List TDim → List TDim
  | [] => []
  | x :: xs => insertSorted x (sortList xs)

/-- `itertools::unique()` applied to a sorted list: drop adjacent
duplicates. -/
def dedup : List TDim → List TDim
  | [] => []
  | [x] => [x]
  | x :: y :: ys => if beq x y then dedup (y :: ys) else x :: dedup (y :: ys)

/-- Running minimum for `minByCost` (strict `<` keeps the first minimum,
as Rust's `min_by_key`). -/
def minByCostGo (best : TDim) : List TDim → TDim
  | [] => best
  | y :: ys => if cost y < cost best then minByCostGo y ys else minByCostGo best ys

/-- `.min_by_key(|e| e.cost())`: first element of minimum cost. -/
def minByCost : List TDim → TDim
  | [] => Val 0
  | x :: xs => minByCostGo x xs

/-- `multi_cartesian_product` over per-term wiggle sets (outer list varies
slowest, as in itertools). -/
def cartesian : List (List TDim) → List (List TDim)
  | [] => [[]]
  | l :: ls => l.flatMap (fun x => (cartesian ls).map (fun rest => x :: rest))

/-- Tail of `findFirstDiv`, tracking the running index. -/
def findFirstDivGo (ix : Nat) : List TDim → Option (Nat × TDim × Nat)
  | [] => none
  | Div a q :: _ => some (ix, a, q)
  | _ :: rest => findFirstDivGo (ix + 1) rest

/-- First `Div` among a product tuple:
`sub.iter().enumerate().filter_map(... Div ...).next()`. -/
def findFirstDiv (l : List TDim) : Option (Nat × TDim × Nat) :=
  findFirstDivGo 0 l

/-- Numerator rebuilt when lifting a `Div` out of an `Add` in `wiggle`:
all other factors are multiplied by `q`, the `Div`'s numerator replaces it. -/
def liftNum (ix : Nat) (num : TDim) (q : Nat) (sub : List TDim) : List TDim :=
  (List.range sub.length).zip sub |>.map
    (fun p => if p.1 != ix then Mul (q : Int) p.2 else num)

/-- `terms.iter().filter_map(Val).next()` in `simplify`'s `Div` branch. -/
def firstVal : List TDim → Option Int
  | [] => none
  | Val v :: _ => some v
  | _ :: rest => firstVal rest

/-- Rebuild the members from the coefficient map, sort, and collapse
`[] ↦ Val 0`, singleton ↦ the member (`simplify`, `Add` branch tail). -/
def simplifyAddFinish (reduced : List (TDim × Int)) : TDim :=
  let members := sortList (reduced.filterMap (fun kv =>
    if kv.2 == 0 then none
    else if beq kv.1 (Val 1) then some (Val kv.2)
    else if kv.2 == 1 then some kv.1
    else some (Mul kv.2 kv.1)))
  match members with
  | [] => Val 0
  | [m] => m
  | ms => Add ms

mutual
/-- `TDim::simplify` (`dim/tree.rs`), fuel-indexed: every recursive call
(including the worklist loop of the `Add` branch, which in the source pops
from a `Vec`) decrements the fuel; with fuel 0 the argument is returned
unchanged. All uses in this file supply ample fuel. -/
def simplifyF : Nat → TDim → TDim
  | 0, t => t
  | fuel + 1, t =>
    match t with
    | Add terms => simplifyAddFinish (simplifyAddWork fuel terms [])
    | Mul p a =>
      match a with
      | Mul p2 a2 => simplifyF fuel (Mul (p * p2) a2)
      | Val p2 => Val (p * p2)
      | _ =>
        let a2 := simplifyF fuel a
        if p == 0 then Val 0
        else if p == 1 then a2
        else
          match a2 with
          | Add terms => Add (simplifyMulList fuel p terms)
          | Val p2 => Val (p * p2)
          | Mul p2 a3 => Mul (p * p2) a3
          | other => Mul p other
    | Div a q =>
      if q == 1 then simplifyF fuel a
      else
        match a with
        | Div a2 q2 => simplifyF fuel (Div a2 (q * q2))
        | _ =>
          let a2 := simplifyF fuel a
          match a2 with
          | Val v => Val (v.tdiv q)
          | Mul p a3 =>
            if p == -1 then Mul (-1) (Div a3 q)
            else if p == (q : Int) then simplifyF fuel a3
            else
              let g := Int.gcd p q
              if (g : Int) == p then Div a3 (q / g)
              else if g == q then Mul (p.tdiv g) a3
              else if g > 1 then simplifyF fuel (Div (Mul (p.tdiv g) a3) (q / g))
              else Div (Mul p a3) q
          | Add terms =>
            match firstVal terms with
            | some v =>
              let offset : Option Int :=
                if v ≥ (q : Int) then some (v.tdiv q)
                else if v < 0 then some (-(intDivCeil (-v) q))
                else none
              match offset with
              | some val =>
                Add [Val val, Div (simplifyF fuel (Add (terms ++ [Val (-val * q)]))) q]
              | none => Div (Add terms) q
            | none => Div (Add terms) q
          | other => Div other q
    | other => other
/-- The worklist loop of `simplify`'s `Add` branch: pop a term, simplify
it, splice nested `Add`s back into the worklist, accumulate everything
else into the coefficient map. (The source pops from the back of the
`Vec`; processing order does not affect the final sorted members.) -/
def simplifyAddWork : Nat → List TDim → List (TDim × Int) → List (TDim × Int)
  | _, [], reduced => reduced
  | 0, _, reduced => reduced
  | fuel + 1, item :: terms, reduced =>
    match simplifyF fuel item with
    | Add items => simplifyAddWork fuel (items ++ terms) reduced
    | Val 0 => simplifyAddWork fuel terms reduced
    | Val v => simplifyAddWork fuel terms (mapAdd reduced (Val 1) v)
    | Mul v f => simplifyAddWork fuel terms (mapAdd reduced f v)
    | n => simplifyAddWork fuel terms (mapAdd reduced n 1)
/-- `Add(terms.map(|a| Mul(p, a).simplify()))` in `simplify`'s `Mul` branch. -/
def simplifyMulList : Nat → Int → List TDim → List TDim
  | _, _, [] => []
  | 0, _, ts => ts
  | fuel + 1, p, t :: ts => simplifyF fuel (Mul p t) :: simplifyMulList fuel p ts
end

mutual
/-- `TDim::wiggle` (`dim/tree.rs`), fuel-indexed like `simplifyF`. -/
def wiggleF : Nat → TDim → List TDim
  | 0, t => [t]
  | fuel + 1, t =>
    match t with
    | Sym s => [Sym s]
    | Val v => [Val v]
    | Add terms =>
      (cartesian (wiggleList fuel terms)).flatMap (fun sub =>
        (match findFirstDiv sub with
         | some (ix, num, q) => [Div (Add (liftNum ix num q sub)) q]
         | none => []) ++ [Add sub])
    | Mul p a => (wiggleF fuel a).map (fun w => Mul p w)
    | Div a q =>
      (wiggleF fuel a).flatMap (fun num =>
        (match num with
         | Add terms =>
           let parts := terms.partition (fun t2 => gcd t2 % q == 0)
           let newTerms := (divList parts.1 q) ++
             (if parts.2.length > 0 then [Div (Add parts.2) q] else [])
           [Add newTerms]
         | _ => []) ++ [Div num q])
/-- `terms.iter().map(|e| e.wiggle())`. -/
def wiggleList : Nat → List TDim → List (List TDim)
  | _, [] => []
  | 0, ts => ts.map (fun t => [t])
  | fuel + 1, t :: ts => wiggleF fuel t :: wiggleList fuel ts
end

/-- Fuel used by `reduce`; ample for every tree in this development. -/
def fuel : Nat := 240

/-- `TDim::reduce` (`dim/tree.rs`): simplify, wiggle, sort, dedup,
re-simplify each form, keep the first of minimum cost. -/
def reduce (t : TDim) : TDim :=
  minByCost (((dedup (sortList (wiggleF fuel (simplifyF fuel t)))).map
    (simplifyF fuel)))

/-- The special value `S`, for streaming (`TDim::s`). -/
def s : TDim := Sym 'S'

/-- `impl Neg for TDim`: `Mul(-1, self).reduce()`. -/
def negT (t : TDim) : TDim := (Mul (-1) t).reduce

/-- `impl AddAssign for TDim`: `Add(vec![self, rhs]).reduce()`. -/
def addT (a b : TDim) : TDim := (Add [a, b]).reduce

/-- `impl SubAssign for TDim`: `self += rhs.neg()`. -/
def subT (a b : TDim) : TDim := addT a (negT b)

/-- `impl MulAssign<i32> for TDim`: `Mul(rhs, self).reduce()`. -/
def mulT (a : TDim) (p : Int) : TDim := (Mul p a).reduce

/-- `impl DivAssign for TDim`: `Div(self, rhs).reduce()`. -/
def divT (a : TDim) (q : Nat) : TDim := (Div a q).reduce

/-- `TDim::div_ceil`: `Div(Add[self, Val(rhs-1)], rhs).reduce()` (the
`rhs - 1` is computed in `i32`). -/
def div_ceil (a : TDim) (q : Nat) : TDim :=
  (Div (Add [a, Val ((q : Int) - 1)]) q).reduce

/-- `TDim::to_integer`: evaluation under the empty binding. -/
def to_integer (t : TDim) : Except String Int := t.eval_with (fun _ => none)

end TDim

/-- `Dummy::eval` from `core/src/ops/dummy.rs`
(`StatelessOp for Dummy`): unconditionally bails. -/
def Dummy.eval (T : Type) (_inputs : List T) : Except String (List T) :=
  .error "eval() called on a Dummy op. This is a bug."

/-! ## The pulse `Delay` operator (`core/src/pulse/delay.rs`) -/

/-- The `Delay` op. `datum_type` is type-level in this embedding;
`buffer_shape` is kept as in the source (a shape vector). -/
structure Delay where
  buffer_shape : List Nat
  axis : Nat
  delay : Nat
  overlap : Nat

/-- The per-session state of a `Delay`: its ring buffer. The source
allocates it with `Tensor::uninitialized`, so its initial contents are
arbitrary; the embedding therefore takes them as a parameter. -/
structure DelayState (α : Type) where
  buffer : List α

/-- `DelayState::eval_t` (`core/src/pulse/delay.rs`), specialized to rank-1
tensors streamed on axis 0 (the configuration of the claim and of the
source's own tests). Axis slices become `List.take`/`List.drop`; the
`rotate_left(input_pulse)` of the buffer-maintenance branch becomes the
drop/take append. Returns the updated state and the emitted tensor. -/
def DelayState.eval_t (op : Delay) (st : DelayState α) (input : List α) :
    DelayState α × List α :=
  let buffered := op.delay + op.overlap
  let input_pulse := input.length
  let output_pulse := input_pulse + op.overlap
  let output :=
    if op.delay < input_pulse then
      let from_input := input_pulse - op.delay
      let from_buffer := output_pulse - from_input
      st.buffer.take from_buffer ++ input.take from_input
    else
      st.buffer.take output_pulse
  let buffer :=
    if buffered < input_pulse then
      input.drop (input_pulse - buffered)
    else
      let rotated := st.buffer.drop input_pulse ++ st.buffer.take input_pulse
      rotated.take (buffered - input_pulse) ++ input
  (⟨buffer⟩, output)

/-- The `k`-th pulse of the stream `s` when fed in chunks of `p`. -/
def streamChunk (s : Nat → α) (p k : Nat) : List α :=
  (List.range p).map (fun j => s (k * p + j))

/-- The delay state after the first `k` pulses of `s` have been consumed. -/
def delayStateAfter (op : Delay) (st0 : DelayState α) (s : Nat → α)
    (p : Nat) : Nat → DelayState α
  | 0 => st0
  | k + 1 =>
    (DelayState.eval_t op (delayStateAfter op st0 s p k) (streamChunk s p k)).1

/-- The `k`-th tensor emitted by a `Delay` run over successive chunks. -/
def delayOutput (op : Delay) (st0 : DelayState α) (s : Nat → α)
    (p k : Nat) : List α :=
  (DelayState.eval_t op (delayStateAfter op st0 s p k) (streamChunk s p k)).2

/-! ## Graph model, patches and translation
(`core/src/model/patch.rs`, `core/src/model/translator.rs`)

The model container itself (`core/src/model/mod.rs`) is not among the
sources; its operations are modelled from the spec (§3 data model, §4.B
public contract) where noted. Rust aborts (slice/`HashMap` index panics)
are modelled as errors. -/

/-- An outlet identifies a producer: `(node_id, slot)`. -/
structure OutletId where
  node : Nat
  slot : Nat
  deriving DecidableEq, Repr

/-- An inlet identifies a consumer: `(node_id, input_index)`. -/
structure InletId where
  node : Nat
  slot : Nat
  deriving DecidableEq, Repr

/-- One output of a node: its fact and its ordered successor list
(edges are stored on the producer side). -/
structure OutletFact (F : Type) where
  fact : F
  successors : List InletId
  deriving Repr

/-- `BaseNode<F, O>`: `{id, name, inputs, op, outputs}`. -/
structure BaseNode (F O : Type) where
  id : Nat
  name : String
  inputs : List OutletId
  op : O
  outputs : List (OutletFact F)
  deriving Repr

/-- `ModelImpl<F, O>`. Modelled from the spec: `{nodes, input_outlets:
ordered, output_outlets: ordered}` plus optional outlet labels. -/
structure ModelImpl (F O : Type) where
  nodes : List (BaseNode F O)
  inputs : List OutletId
  outputs : List OutletId
  outlet_labels : List (OutletId × String)
  deriving Repr

/-- `ModelImpl::default()`: the empty model. -/
def ModelImpl.empty : ModelImpl F O := ⟨[], [], [], []⟩

/-- Modelled from the spec: `add_node(name, op, output_facts) → node_id`
appends a node with empty inputs and one output per fact; node ids are
dense integers assigned at insertion (the new id is the previous node
count). Infallible. -/
def ModelImpl.add_node (m : ModelImpl F O) (name : String) (op : O)
    (facts : List F) : ModelImpl F O × Nat :=
  let id := m.nodes.length
  ({ m with nodes := m.nodes ++
      [⟨id, name, [], op, facts.map (fun f => ⟨f, []⟩)⟩] }, id)

/-- `outlet_fact(outlet)`: the fact stored at a producer slot. -/
def ModelImpl.outlet_fact (m : ModelImpl F O) (o : OutletId) :
    Except String F :=
  match m.nodes.get? o.node with
  | none => .error "node index out of bounds"
  | some n =>
    match n.outputs.get? o.slot with
    | none => .error "slot index out of bounds"
    | some of => .ok of.fact

/-- Replace node `i` (no-op when out of range; call sites check). -/
def ModelImpl.setNode (m : ModelImpl F O) (i : Nat) (n : BaseNode F O) :
    ModelImpl F O :=
  { m with nodes := m.nodes.set i n }

/-- Remove an inlet from the successor list of a producer outlet
(maintains the spec's §3 invariant that each inlet appears exactly once
among its producer's successors when an input is overwritten). -/
def ModelImpl.removeSuccessor (m : ModelImpl F O) (o : OutletId)
    (i : InletId) : ModelImpl F O :=
  match m.nodes.get? o.node with
  | none => m
  | some n =>
    let newOutputs := n.outputs.enum.map (fun p =>
      if p.1 = o.slot then
        ⟨p.2.fact, p.2.successors.filter (fun s2 => s2 ≠ i)⟩
      else p.2)
    m.setNode o.node { n with outputs := newOutputs }

/-- If the consumer inlet is already wired, remove it from its previous
producer's successor list (part of `add_edge` re-wiring). -/
def ModelImpl.disconnectPrev (m : ModelImpl F O) (inlet : InletId) :
    ModelImpl F O :=
  match m.nodes.get? inlet.node with
  | none => m
  | some consumer =>
    match consumer.inputs.get? inlet.slot with
    | some prev => m.removeSuccessor prev inlet
    | none => m

/-- Point the consumer's input slot at the producer outlet (appending when
the slot is the next free one). -/
def ModelImpl.setInputSlot (m : ModelImpl F O) (inlet : InletId)
    (outlet : OutletId) : ModelImpl F O :=
  match m.nodes.get? inlet.node with
  | none => m
  | some c2 =>
    let newInputs :=
      if inlet.slot = c2.inputs.length then c2.inputs ++ [outlet]
      else c2.inputs.set inlet.slot outlet
    m.setNode inlet.node { c2 with inputs := newInputs }

/-- Record the reverse successor on the producer side. -/
def ModelImpl.pushSuccessor (m : ModelImpl F O) (outlet : OutletId)
    (inlet : InletId) : ModelImpl F O :=
  match m.nodes.get? outlet.node with
  | none => m
  | some p2 =>
    let newOutputs := p2.outputs.enum.map (fun pr =>
      if pr.1 = outlet.slot then
        ⟨pr.2.fact, pr.2.successors ++ [inlet]⟩
      else pr.2)
    m.setNode outlet.node { p2 with outputs := newOutputs }

/-- Modelled from the spec: `add_edge(producer_outlet, consumer_inlet)`
establishes the link, failing if either endpoint is invalid or the
consumer arity would be exceeded (inputs are connected consecutively);
it records the reverse successor, and when an existing input is
overwritten the old producer's successor entry is removed so that the
§3 back-pointer invariant is maintained. -/
def ModelImpl.add_edge (m : ModelImpl F O) (outlet : OutletId)
    (inlet : InletId) : Except String (ModelImpl F O) :=
  match m.nodes.get? outlet.node with
  | none => .error "add_edge: invalid producer node"
  | some producer =>
    if outlet.slot ≥ producer.outputs.length then
      .error "add_edge: invalid producer slot"
    else
      match m.nodes.get? inlet.node with
      | none => .error "add_edge: invalid consumer node"
      | some consumer =>
        if inlet.slot > consumer.inputs.length then
          .error "add_edge: edges must be added in order and consecutive"
        else
          .ok (((m.disconnectPrev inlet).setInputSlot inlet
            outlet).pushSuccessor outlet inlet)

/-- `outlet_label`. -/
def ModelImpl.outlet_label (m : ModelImpl F O) (o : OutletId) :
    Option String :=
  m.outlet_labels.lookup o

/-- `set_outlet_label`. -/
def ModelImpl.set_outlet_label (m : ModelImpl F O) (o : OutletId)
    (label : String) : ModelImpl F O :=
  let keep := m.outlet_labels.filter (fun p => p.1 ≠ o)
  { m with outlet_labels := (o, label) :: keep }

/-- `ModelPatch<F, O>` (`core/src/model/patch.rs`): a little embryo model
plus `incoming`, `shunt_outlet_by` and `obliterate`. The two `HashMap`s
are association lists here (their keys are unique at every use site). -/
structure ModelPatch (F O : Type) where
  model : ModelImpl F O
  incoming : List (OutletId × OutletId)
  shunt_outlet_by : List (OutletId × OutletId)
  obliterate : List Nat

/-- The empty patch (`ModelPatch::default`). -/
def ModelPatch.empty : ModelPatch F O := ⟨ModelImpl.empty, [], [], []⟩

/-- Phase 1 of `ModelPatch::apply`: clone each non-source patch node into
the target with `add_node`, extend the mapping with its outlets, and
remember its inputs for phase 3. -/
def applyNodes (is_source : O → Bool) (target : ModelImpl F O)
    (mapping : List (OutletId × OutletId))
    (all_inputs : List (Nat × List OutletId)) :
    List (BaseNode F O) →
      ModelImpl F O × List (OutletId × OutletId) × List (Nat × List OutletId)
  | [] => (target, mapping, all_inputs)
  | node :: rest =>
    if is_source node.op then
      applyNodes is_source target mapping all_inputs rest
    else
      let facts := node.outputs.map (fun of => of.fact)
      let added := target.add_node node.name node.op facts
      let mapping2 := mapping ++ (List.range node.outputs.length).map
        (fun ix => (OutletId.mk node.id ix, OutletId.mk added.2 ix))
      applyNodes is_source added.1 mapping2
        (all_inputs ++ [(added.2, node.inputs)]) rest

/-- Copy each successor of a shunted host outlet onto its replacement
(phase 2 inner loop); the target is returned as mutated so far even when
an `add_edge` fails. -/
def addEdgesToSuccs (m : ModelImpl F O) (fixed_by : OutletId) :
    List InletId → ModelImpl F O × Except String Unit
  | [] => (m, .ok ())
  | succ :: rest =>
    match m.add_edge fixed_by succ with
    | .ok m2 => addEdgesToSuccs m2 fixed_by rest
    | .error e => (m, .error e)

/-- One shunt of phase 2: resolve the replacement through the mapping
(the source indexes the `HashMap`, aborting when absent), copy the
successors, rewrite `output_outlets` slots, transfer the label. -/
def applyShunt (target : ModelImpl F O)
    (mapping : List (OutletId × OutletId)) (outlet by_ : OutletId) :
    ModelImpl F O × Except String Unit :=
  match mapping.lookup by_ with
  | none => (target, .error "apply: shunt target missing from mapping")
  | some fixed_by =>
    match target.nodes.get? outlet.node with
    | none => (target, .error "apply: shunted outlet node out of bounds")
    | some n =>
      match n.outputs.get? outlet.slot with
      | none => (target, .error "apply: shunted outlet slot out of bounds")
      | some of =>
        match addEdgesToSuccs target fixed_by of.successors with
        | (t2, .error e) => (t2, .error e)
        | (t2, .ok ()) =>
          let newOuts := t2.outputs.map
            (fun o => if o = outlet then fixed_by else o)
          let t3 := { t2 with outputs := newOuts }
          let t4 :=
            match t3.outlet_label outlet with
            | some label => t3.set_outlet_label fixed_by label
            | none => t3
          (t4, .ok ())

/-- Phase 2 of `ModelPatch::apply` over the whole shunt map. -/
def applyShunts (target : ModelImpl F O)
    (mapping : List (OutletId × OutletId)) :
    List (OutletId × OutletId) → ModelImpl F O × Except String Unit
  | [] => (target, .ok ())
  | (outlet, by_) :: rest =>
    match applyShunt target mapping outlet by_ with
    | (t2, .ok ()) => applyShunts t2 mapping rest
    | (t2, .error e) => (t2, .error e)

/-- Phase 3 inner loop: wire one cloned node's inputs through the mapping
(`target.add_edge(mapping[&input], InletId::new(node, ix))`). -/
def applyWireInputs (m : ModelImpl F O)
    (mapping : List (OutletId × OutletId)) (node : Nat) (ix : Nat) :
    List OutletId → ModelImpl F O × Except String Unit
  | [] => (m, .ok ())
  | input :: rest =>
    match mapping.lookup input with
    | none => (m, .error "apply: input missing from mapping")
    | some src =>
      match m.add_edge src (InletId.mk node ix) with
      | .ok m2 => applyWireInputs m2 mapping node (ix + 1) rest
      | .error e => (m, .error e)

/-- Phase 3 of `ModelPatch::apply` over all cloned nodes. -/
def applyInputs (m : ModelImpl F O)
    (mapping : List (OutletId × OutletId)) :
    List (Nat × List OutletId) → ModelImpl F O × Except String Unit
  | [] => (m, .ok ())
  | (node, inputs) :: rest =>
    match applyWireInputs m mapping node 0 inputs with
    | (m2, .ok ()) => applyInputs m2 mapping rest
    | (m2, .error e) => (m2, .error e)

/-- Phase 4 of `ModelPatch::apply`: replace each obliterated node's op by
the dummy op (`target.node_mut(node).op = target.create_dummy()`). -/
def applyObliterate (dummy : O) (m : ModelImpl F O) :
    List Nat → ModelImpl F O × Except String Unit
  | [] => (m, .ok ())
  | n :: rest =>
    match m.nodes.get? n with
    | none => (m, .error "apply: obliterated node out of bounds")
    | some node =>
      applyObliterate dummy (m.setNode n { node with op := dummy }) rest

/-- `ModelPatch::apply` (`core/src/model/patch.rs`): phases 1-4 in order,
threading the (in Rust, in-place mutated) target; the result carries the
target as mutated so far together with the `TractResult<()>`. The
`debug_assert_eq!` I/O-arity checks between phases are proved as theorems
below. `is_source` and `dummy` model `ModelSpecialOps`. -/
def ModelPatch.apply (is_source : O → Bool) (dummy : O)
    (patch : ModelPatch F O) (target : ModelImpl F O) :
    ModelImpl F O × Except String Unit :=
  let s1 := applyNodes is_source target patch.incoming [] patch.model.nodes
  match applyShunts s1.1 s1.2.1 patch.shunt_outlet_by with
  | (t2, .error e) => (t2, .error e)
  | (t2, .ok ()) =>
    match applyInputs t2 s1.2.1 s1.2.2 with
    | (t3, .error e) => (t3, .error e)
    | (t3, .ok ()) => applyObliterate dummy t3 patch.obliterate

/-- `Translate::translate_model_with_mappings` visits nodes in
`eval_order`; the per-node work is the abstract `translate_node` of the
trait (a parameter here), which may extend the target model and returns
the destination outlets of the translated node. -/
def TranslateNode (F O F2 O2 : Type) : Type :=
  ModelImpl F O → BaseNode F O → ModelImpl F2 O2 →
    List (OutletId × OutletId) →
      Except String (ModelImpl F2 O2 × List OutletId)

/-- Modelled from the spec: `eval_order()` is a deterministic topological
order over the nodes reachable from the model outputs (visiting a node's
inputs before the node). Depth-first postorder with a visited set; the
fuel is the node count plus one per visit, ample because each node is
expanded at most once. -/
def evalOrderGo (m : ModelImpl F O) :
    Nat → List Nat → List Nat → List Nat → List Nat
  | 0, _, _, acc => acc
  | _ + 1, [], _, acc => acc
  | fuel + 1, n :: stack, visited, acc =>
    if visited.contains n then
      evalOrderGo m fuel stack visited acc
    else
      match m.nodes.get? n with
      | none => evalOrderGo m fuel stack (n :: visited) acc
      | some node =>
        let deps := (node.inputs.map (fun i => i.node)).filter
          (fun d => !visited.contains d && !acc.contains d)
        match deps with
        | [] => evalOrderGo m fuel stack (n :: visited) (acc ++ [n])
        | _ => evalOrderGo m fuel (deps ++ n :: stack) visited acc

/-- Modelled from the spec: `eval_order() → [node_id]`. -/
def ModelImpl.eval_order (m : ModelImpl F O) : Except String (List Nat) :=
  .ok (evalOrderGo m (m.nodes.length * m.nodes.length + m.nodes.length + 1)
    (m.outputs.map (fun o => o.node)) [] [])

/-- The per-node step of `translate_model_with_mappings`: translate the
node, then record its outlets in the mapping and transfer outlet labels. -/
def translateStep (tn : TranslateNode F O F2 O2) (source : ModelImpl F O)
    (target : ModelImpl F2 O2) (mapping : List (OutletId × OutletId))
    (old_id : Nat) :
    Except String (ModelImpl F2 O2 × List (OutletId × OutletId)) :=
  match source.nodes.get? old_id with
  | none => .error "translate: node out of bounds"
  | some node => do
    let r ← tn source node target mapping
    let withLabels := r.2.enum.foldl
      (fun (st : ModelImpl F2 O2 × List (OutletId × OutletId)) p =>
        let mapping2 := st.2 ++ [(OutletId.mk node.id p.1, p.2)]
        match source.outlet_label (OutletId.mk node.id p.1) with
        | some label => (st.1.set_outlet_label p.2 label, mapping2)
        | none => (st.1, mapping2))
      (r.1, mapping)
    pure withLabels

/-- Fold `translateStep` over an evaluation order. -/
def translateNodes (tn : TranslateNode F O F2 O2) (source : ModelImpl F O) :
    ModelImpl F2 O2 → List (OutletId × OutletId) → List Nat →
      Except String (ModelImpl F2 O2 × List (OutletId × OutletId))
  | target, mapping, [] => .ok (target, mapping)
  | target, mapping, old_id :: rest => do
    let st ← translateStep tn source target mapping old_id
    translateNodes tn source st.1 st.2 rest

/-- The useless-input pass: source inputs absent from the mapping are
still translated, to maintain the interface. -/
def translateUseless (tn : TranslateNode F O F2 O2)
    (source : ModelImpl F O) :
    ModelImpl F2 O2 → List (OutletId × OutletId) → List OutletId →
      Except String (ModelImpl F2 O2 × List (OutletId × OutletId))
  | target, mapping, [] => .ok (target, mapping)
  | target, mapping, i :: rest =>
    if (mapping.lookup i).isSome then
      translateUseless tn source target mapping rest
    else
      match source.nodes.get? i.node with
      | none => .error "translate: input node out of bounds"
      | some node => do
        let r ← tn source node target mapping
        match r.2.get? 0 with
        | none => .error "translate: translated input has no outlet"
        | some o0 =>
          translateUseless tn source r.1 (mapping ++ [(i, o0)]) rest

/-- Push a list of outlets through the mapping, aborting when one is
absent (the source indexes the `HashMap`). -/
def mapOutlets (mapping : List (OutletId × OutletId)) :
    List OutletId → Except String (List OutletId)
  | [] => .ok []
  | o :: rest =>
    match mapping.lookup o with
    | none => .error "translate: outlet missing from mapping"
    | some o2 => do pure (o2 :: (← mapOutlets mapping rest))

/-- `translate_model_with_mappings` (`core/src/model/translator.rs`):
translate every node in `eval_order`, translate still-unmapped inputs,
then set the target `inputs`/`outputs` by pushing the source I/O outlets
through the mapping, preserving order. -/
def translate_model_with_mappings (tn : TranslateNode F O F2 O2)
    (source : ModelImpl F O) :
    Except String (ModelImpl F2 O2 × List (OutletId × OutletId)) := do
  let order ← source.eval_order
  let st ← translateNodes tn source ModelImpl.empty [] order
  let st2 ← translateUseless tn source st.1 st.2 source.inputs
  let new_inputs ← mapOutlets st2.2 source.inputs
  let new_outputs ← mapOutlets st2.2 source.outputs
  pure ({ st2.1 with inputs := new_inputs, outputs := new_outputs }, st2.2)

/-- `translate_model`: the model component. -/
def translate_model (tn : TranslateNode F O F2 O2)
    (source : ModelImpl F O) : Except String (ModelImpl F2 O2) := do
  pure (← translate_model_with_mappings tn source).1

/-- A translator instance used to exercise the generic theorems: copy
each node (same facts and op), as `IntoTranslator` with identity
conversions. -/
def copyTranslateNode (F O : Type) : TranslateNode F O F O :=
  fun _ node target _ =>
    let added := target.add_node node.name node.op
      (node.outputs.map (fun of => of.fact))
    .ok (added.1, (List.range node.outputs.length).map
      (fun ix => OutletId.mk added.2 ix))

/-- A one-source model over `Nat` facts and `Nat` ops. -/
def natSourceModel : ModelImpl Nat Nat :=
  ⟨[⟨0, "source", [], 0, [⟨7, []⟩]⟩], [⟨0, 0⟩], [⟨0, 0⟩], []⟩

/-- A patch whose cloned node taps a host outlet that does not exist
(`incoming` points at node 9): phase 1 clones the node into the host,
then phase 3 fails wiring its input. -/
def danglingPatch : ModelPatch Nat Nat :=
  { model := ⟨[⟨0, "tap", [], 0, [⟨7, []⟩]⟩,
               ⟨1, "op", [⟨0, 0⟩], 5, [⟨7, []⟩]⟩], [], [], []⟩
    incoming := [(⟨0, 0⟩, ⟨9, 0⟩)]
    shunt_outlet_by := []
    obliterate := [] }

/-! ## Typed ops: `Slice`, `Downsample`, declutter
(`core/src/ops/array/slice.rs`, `core/src/ops/downsample/{mod,array}.rs`) -/

/-- `TypedFact`: the datum type is type-level in this embedding; the
shape is a vector of `TDim`s (`ShapeFact`). -/
structure TypedFact where
  shape : List TDim
  deriving Repr

/-- The closed set of typed ops this development needs. `Slice<D>` is
embedded once with `D = TDim` (`Slice<usize>` values become literal
`TDim::Val`s); the op payloads mirror the source structs
`Slice{axis, start, end}` and `Downsample{axis, stride, modulo}`. -/
inductive TypedOpKind where
  | source : TypedOpKind
  | slice : Nat → TDim → TDim → TypedOpKind
  | downsample : Nat → Nat → Nat → TypedOpKind
  | dummy : TypedOpKind
  deriving Repr

/-- `TypedFact::same_as`: observational fact equality (shape comparison;
the datum type is type-level here). -/
def TypedFact.same_as (a b : TypedFact) : Bool :=
  TDim.beqList a.shape b.shape

/-- `ShapeFact::set_dim`: replace one dimension, failing out of range. -/
def TypedFact.set_dim (f : TypedFact) (axis : Nat) (d : TDim) :
    Except String TypedFact :=
  if axis < f.shape.length then .ok ⟨f.shape.set axis d⟩
  else .error "set_dim: axis out of range"

/-- `Downsample::transform_dim` (`downsample/mod.rs`):
`(input_dim - modulo).div_ceil(stride)`. -/
def downsampleTransformDim (stride modulo : Nat) (input_dim : TDim) : TDim :=
  (input_dim.subT (TDim.Val modulo)).div_ceil stride

/-- `TypedOp::output_facts` for the embedded ops: `Slice` sets the sliced
axis to `end - start` (`slice.rs`); `Downsample` sets its axis through
`transform_dim` (`downsample/mod.rs`); `Dummy` has no outputs
(`dummy.rs`). `source` nodes are added with their fact directly, never
through fact propagation. -/
def TypedOpKind.output_facts : TypedOpKind → List TypedFact →
    Except String (List TypedFact)
  | .source, _ => .error "source has no output_facts"
  | .slice axis start stop, inputs =>
    match inputs.get? 0 with
    | none => .error "missing input fact"
    | some fact => do
      let f2 ← fact.set_dim axis (stop.subT start)
      pure [f2]
  | .downsample axis stride modulo, inputs =>
    match inputs.get? 0 with
    | none => .error "missing input fact"
    | some fact =>
      match fact.shape.get? axis with
      | none => .error "dim: axis out of range"
      | some d => do
        let f2 ← fact.set_dim axis (downsampleTransformDim stride modulo d)
        pure [f2]
  | .dummy, _ => .ok []

/-- Is this op a source? (`ModelSpecialOps::is_source`). -/
def TypedOpKind.is_source : TypedOpKind → Bool
  | .source => true
  | _ => false

/-- Fetch the facts of a list of outlets. -/
def collectFacts (m : ModelImpl F O) : List OutletId → Except String (List F)
  | [] => .ok []
  | o :: rest => do pure ((← m.outlet_fact o) :: (← collectFacts m rest))

/-- Wire the consecutive inputs of a freshly added node. -/
def wireEdges : ModelImpl F O → Nat → Nat → List OutletId →
    Except String (ModelImpl F O)
  | m, _, _, [] => .ok m
  | m, id, ix, o :: rest => do
    let m2 ← m.add_edge o (InletId.mk id ix)
    wireEdges m2 id (ix + 1) rest

/-- Modelled from the spec: `wire_node(name, op, inputs)` adds a node
whose output facts are computed by the op's fact-propagation hook and
wires the given inputs in order; returns the new node's outlets. -/
def wireNode (output_facts : O → List F → Except String (List F))
    (m : ModelImpl F O) (name : String) (op : O)
    (inputs : List OutletId) : Except String (ModelImpl F O × List OutletId) := do
  let ifacts ← collectFacts m inputs
  let facts ← output_facts op ifacts
  let added := m.add_node name op facts
  let m3 ← wireEdges added.1 added.2 0 inputs
  pure (m3, (List.range facts.length).map (fun ix => OutletId.mk added.2 ix))

/-- `ModelPatch::tap_model` (`patch.rs`): add a source inside the patch
carrying the host outlet's fact; record the incoming entry; return the
patch-side outlet. -/
def ModelPatch.tap_model (patch : ModelPatch F O) (sourceOp : O)
    (model : ModelImpl F O) (outlet : OutletId) :
    Except String (ModelPatch F O × OutletId) := do
  let fact ← model.outlet_fact outlet
  let added := patch.model.add_node
    ("incoming-" ++ toString outlet.node ++ "/" ++ toString outlet.slot)
    sourceOp [fact]
  let id := OutletId.mk added.2 0
  let p2 := { patch with
    model := added.1
    incoming := patch.incoming ++ [(id, outlet)] }
  pure (p2, id)

/-- `ModelPatch::shunt_outside` (`patch.rs`): record a replacement after
checking the two facts are observationally equal (`same_as`). -/
def ModelPatch.shunt_outside (same_as : F → F → Bool)
    (patch : ModelPatch F O) (model : ModelImpl F O)
    (outlet by_ : OutletId) : Except String (ModelPatch F O) := do
  let original_fact ← model.outlet_fact outlet
  let new_fact ← patch.model.outlet_fact by_
  if !(same_as original_fact new_fact) then
    .error "Trying to substitute facts that differ"
  else
    .ok { patch with shunt_outlet_by := patch.shunt_outlet_by ++ [(outlet, by_)] }

/-- `ModelPatch::shunt_one_op` (`patch.rs`): tap the node's first input
and shunt the node's output 0 to the tap. -/
def ModelPatch.shunt_one_op (sourceOp : O) (same_as : F → F → Bool)
    (model : ModelImpl F O) (node : BaseNode F O) :
    Except String (ModelPatch F O) := do
  match node.inputs.get? 0 with
  | none => .error "index out of bounds"
  | some i0 => do
    let tapped ← (ModelPatch.empty).tap_model sourceOp model i0
    tapped.1.shunt_outside same_as model (OutletId.mk node.id 0) tapped.2

/-- `ModelPatch::wire_node`: `wireNode` inside the patch model. -/
def ModelPatch.wire_node (output_facts : O → List F → Except String (List F))
    (patch : ModelPatch F O) (name : String) (op : O)
    (inputs : List OutletId) :
    Except String (ModelPatch F O × List OutletId) := do
  let r ← wireNode output_facts patch.model name op inputs
  pure ({ patch with model := r.1 }, r.2)

/-- The typed model flavor. -/
def TypedModel : Type := ModelImpl TypedFact TypedOpKind

/-- The typed node flavor. -/
def TypedNode : Type := BaseNode TypedFact TypedOpKind

/-- The typed patch flavor. -/
def TypedModelPatch : Type := ModelPatch TypedFact TypedOpKind

/-- `Slice::declutter` (`slice.rs`), `D = TDim`: when `start == 0` and
`end` equals the input fact's dimension on the sliced axis, shunt the op;
otherwise the source tries the concat rewrite, whose `NormConcat`
downcast never fires for the embedded op set, yielding `None`. The `&&`
in the source is lazy: the input dimension is only fetched when
`start == 0`. -/
def Slice.declutter (axis : Nat) (start stop : TDim) (model : TypedModel)
    (node : TypedNode) : Except String (Option TypedModelPatch) :=
  match node.inputs.get? 0 with
  | none => .error "index out of bounds"
  | some i0 =>
    match model.nodes.get? i0.node with
    | none => .error "node index out of bounds"
    | some _prec => do
      let infact ← ModelImpl.outlet_fact model i0
      let hit ←
        if TDim.beq start (TDim.Val 0) then
          match infact.shape.get? axis with
          | none => Except.error "dim: axis out of range"
          | some d => Except.ok (TDim.beq stop d)
        else Except.ok false
      if hit then do
        let p ← ModelPatch.shunt_one_op TypedOpKind.source TypedFact.same_as
          model node
        pure (some p)
      else
        -- `start.to_integer()`/`end.to_integer()` gate, then the
        -- `NormConcat` downcast: no concat op exists in this embedding,
        -- so every remaining path returns `Ok(None)`.
        pure none

/-- Modelled from the spec: the *single predecessor* of a node — the node
feeding its only input, provided that predecessor's outputs feed nothing
else (`single_prec` in the model container, absent from the sources). -/
def single_prec (model : ModelImpl F O) (id : Nat) :
    Except String (Option (BaseNode F O)) :=
  match model.nodes.get? id with
  | none => .error "node index out of bounds"
  | some node =>
    match node.inputs with
    | [i0] =>
      match model.nodes.get? i0.node with
      | none => .error "node index out of bounds"
      | some prec =>
        if (prec.outputs.map (fun of => of.successors.length)).sum = 1 then
          .ok (some prec)
        else .ok none
    | _ => .ok none

/-- `pull_downsample_over_slice` (`downsample/array.rs`). -/
def pull_downsample_over_slice (model : TypedModel)
    (slice_node : TypedNode) (slice_axis : Nat) (slice_start _slice_stop : TDim)
    (down_node : TypedNode) (down_axis down_stride down_modulo : Nat) :
    Except String (Option TypedModelPatch) :=
  if down_axis ≠ slice_axis then .ok none
  else do
    let s ← slice_start.to_integer
    let modulo := (down_modulo + s.toNat) % down_stride
    let left := (down_modulo + s.toNat) / down_stride
    match slice_node.inputs.get? 0 with
    | none => .error "index out of bounds"
    | some sl0 => do
      let tapped ← (ModelPatch.empty).tap_model TypedOpKind.source model sl0
      match down_node.outputs.get? 0 with
      | none => .error "index out of bounds"
      | some of0 =>
        match of0.fact.shape.get? down_axis with
        | none => .error "dim: axis out of range"
        | some final_len => do
          let new_down := TypedOpKind.downsample down_axis down_stride modulo
          let wired ← tapped.1.wire_node TypedOpKind.output_facts
            down_node.name new_down [tapped.2]
          let new_start := left
          let new_end ← (final_len.addT (TDim.Val (left : Int))).to_integer
          let op := TypedOpKind.slice slice_axis (TDim.Val (new_start : Int))
            (TDim.Val new_end)
          let wired2 ← wired.1.wire_node TypedOpKind.output_facts
            slice_node.name op wired.2
          match wired2.2.get? 0 with
          | none => .error "index out of bounds"
          | some new_slice => do
            let patch2 ← wired2.1.shunt_outside TypedFact.same_as model
              (OutletId.mk down_node.id 0) new_slice
            pure (some patch2)

/-- `pull_downsample_up` (`downsample/mod.rs`): look at the single
predecessor; a `Slice` triggers the slice commute. The `AxisOp`,
`ConvUnary` and `Scan` downcasts, and the invariants axis-tracking arm,
never fire for the embedded op set, so every other predecessor yields
`None`. -/
def pull_downsample_up (model : TypedModel) (down_node : TypedNode)
    (down_axis down_stride down_modulo : Nat) :
    Except String (Option TypedModelPatch) := do
  let prec0 ← single_prec model down_node.id
  match prec0 with
  | some prec =>
    match prec.op with
    | .slice sa sstart sstop =>
      pull_downsample_over_slice model prec sa sstart sstop down_node
        down_axis down_stride down_modulo
    | _ => pure none
  | none => pure none

/-- `Downsample::declutter` (`downsample/mod.rs`): `stride == 1` shunts
the op; otherwise try pulling the downsample up. -/
def Downsample.declutter (axis stride modulo : Nat) (model : TypedModel)
    (node : TypedNode) : Except String (Option TypedModelPatch) :=
  if stride == 1 then do
    let p ← ModelPatch.shunt_one_op TypedOpKind.source TypedFact.same_as
      model node
    pure (some p)
  else pull_downsample_up model node axis stride modulo

/-- The S5 scenario model: a length-`S` source, a
`Slice{axis=0, start=4, end=20}`, then a
`Downsample{axis=0, stride=2, modulo=0}` (facts as fact propagation
computes them: `20-4 = 16`, `(16-0).div_ceil(2) = 8`). -/
def cropDownModel : TypedModel :=
  ⟨[⟨0, "input", [], .source, [⟨⟨[TDim.s]⟩, [⟨1, 0⟩]⟩]⟩,
    ⟨1, "crop", [⟨0, 0⟩], .slice 0 (TDim.Val 4) (TDim.Val 20),
      [⟨⟨[TDim.Val 16]⟩, [⟨2, 0⟩]⟩]⟩,
    ⟨2, "down", [⟨1, 0⟩], .downsample 0 2 0, [⟨⟨[TDim.Val 8]⟩, []⟩]⟩],
   [⟨0, 0⟩], [⟨2, 0⟩], []⟩

/-- The S4 scenario model: a rank-2 source and a
`Slice{axis=1, start=0, end=5}` over a `[2, 5]` input. -/
def sliceShuntModel : TypedModel :=
  ⟨[⟨0, "input", [], .source, [⟨⟨[TDim.Val 2, TDim.Val 5]⟩, [⟨1, 0⟩]⟩]⟩,
    ⟨1, "slice", [⟨0, 0⟩], .slice 1 (TDim.Val 0) (TDim.Val 5),
      [⟨⟨[TDim.Val 2, TDim.Val 5]⟩, []⟩]⟩],
   [⟨0, 0⟩], [⟨1, 0⟩], []⟩

/-! ## Pulsed facts and `Pad` pulsification (`core/src/ops/array/pad.rs`) -/

/-- `PulsedFact`: typed fact plus the streaming data `(axis, pulse via
shape, delay, dim)`; the datum type is type-level in this embedding. -/
structure PulsedFact where
  shape : List Nat
  axis : Nat
  dim : TDim
  delay : Nat
  deriving Repr

/-- Modelled from the spec: the pulse of a fact is the chunk size along
the streaming axis, `shape[axis]` (the source indexes the shape; an
out-of-range axis aborts there and is 0 here, an unreachable case for
well-formed facts). -/
def PulsedFact.pulse (f : PulsedFact) : Nat := f.shape.getD f.axis 0

/-- `PadMode` (`pad.rs`): the `Constant` payload tensor is modelled as a
scalar. -/
inductive PadMode where
  | constant : Int → PadMode
  | reflect
  | edge
  deriving Repr

/-- `Pad` (`pad.rs`). -/
structure Pad where
  pads : List (Nat × Nat)
  mode : PadMode
  deriving Repr

/-- `PulsePad` (`pad.rs`). -/
structure PulsePad where
  axis : Nat
  pulse : Nat
  before : Nat
  after : Nat
  begin_input : Nat
  end_input : TDim
  mode : PadMode
  deriving Repr

/-- `Delay::new` (`delay.rs`): buffer shape is the input shape with the
streamed axis replaced by `delay + overlap`. -/
def Delay.new (input_fact : PulsedFact) (delay overlap : Nat) : Delay :=
  ⟨input_fact.shape.set input_fact.axis (delay + overlap),
   input_fact.axis, delay, overlap⟩

/-- The pulsed ops this development needs. -/
inductive PulseOp where
  | source : PulseOp
  | delayOp : Delay → PulseOp
  | pulsePad : PulsePad → PulseOp

/-- `PulsedOp::pulsed_output_facts`: `Delay` grows the streamed axis by
`overlap` and the delay by `delay + overlap` (`delay.rs`); `PulsePad`
grows `dim` by `before + after` and shrinks `delay` by `before`
(`pad.rs`; the `usize` subtraction saturates here where Rust would abort
on underflow, a case no claim reaches). -/
def PulseOp.pulsed_output_facts : PulseOp → List PulsedFact →
    Except String (List PulsedFact)
  | .source, _ => .error "source has no pulsed_output_facts"
  | .delayOp d, inputs =>
    match inputs.get? 0 with
    | none => .error "missing input fact"
    | some f =>
      .ok [{ f with
        shape := f.shape.set d.axis (f.shape.getD d.axis 0 + d.overlap)
        delay := f.delay + (d.delay + d.overlap) }]
  | .pulsePad pp, inputs =>
    match inputs.get? 0 with
    | none => .error "missing input fact"
    | some f =>
      .ok [{ f with
        dim := f.dim.addT (TDim.Val ((pp.before + pp.after : Nat) : Int))
        delay := f.delay - pp.before }]

/-- The pulsed model flavor. -/
def PulsedModel : Type := ModelImpl PulsedFact PulseOp

/-- `Pad::pulsify` (`pad.rs`, lines 133-178): resolve the pulsed input,
reject pulse-incorrect configurations (non-stream padding; `Edge` with
`before >= pulse`; `Reflect`), optionally wire a `Delay`, then wire the
`PulsePad`. `node_name`/`node_inputs` stand for the `&NormalizedNode`
fields the source reads. -/
def Pad.pulsify (self : Pad) (node_name : String)
    (node_inputs : List OutletId) (target : PulsedModel)
    (mapping : List (OutletId × OutletId)) :
    Except String (PulsedModel × List OutletId) :=
  match node_inputs.get? 0 with
  | none => .error "index out of bounds"
  | some i0 =>
    match mapping.lookup i0 with
    | none => .error "pulsify: input missing from mapping"
    | some input0 => do
      let fact ← ModelImpl.outlet_fact target input0
      if !(self.pads.enum.all (fun p =>
            p.1 == fact.axis || (p.2.1 == 0 && p.2.2 == 0))) then
        .error "Pad pulse only implemented for streaming dim"
      else
        match self.pads.get? fact.axis with
        | none => .error "index out of bounds"
        | some ba => do
          let before := ba.1
          let after := ba.2
          let pulse := fact.pulse
          let extra0 := before - fact.delay
          let extra_delay ←
            match self.mode with
            | .constant _ => Except.ok extra0
            | .edge =>
              if before < pulse then
                let start_offset := (fact.delay + extra0) % pulse
                if before > start_offset then
                  Except.ok (extra0 + (before - start_offset))
                else Except.ok extra0
              else
                (Except.error
                  "Edge padding mode needs pulse strictly bigger than left padding")
            | .reflect =>
              (Except.error "Reflect padding mode pulsing is not supported")
          let wired ←
            if extra_delay > 0 then do
              let w ← wireNode PulseOp.pulsed_output_facts target
                (node_name ++ ".Delay")
                (.delayOp (Delay.new fact extra_delay 0)) [input0]
              match w.2.get? 0 with
              | none => Except.error "wire_node returned no outlet"
              | some o => Except.ok (w.1, o)
            else Except.ok (target, input0)
          let op := PulseOp.pulsePad ⟨fact.axis, pulse, before, after,
            fact.delay + extra_delay,
            ((TDim.Val (fact.delay : Int)).addT
              (TDim.Val (extra_delay : Int))).addT fact.dim, self.mode⟩
          wireNode PulseOp.pulsed_output_facts wired.1 node_name op [wired.2]

/-- A pulsed model with a single source of pulse 4, delay 0, dim `S`. -/
def pulsedSourceModel : PulsedModel :=
  ⟨[⟨0, "source", [], .source, [⟨⟨[4], 0, TDim.s, 0⟩, []⟩]⟩],
   [⟨0, 0⟩], [⟨0, 0⟩], []⟩

/-- The op stored at node `i`, if any (used to state that `apply` does or
does not obliterate). -/
def opAt (m : ModelImpl F O) (i : Nat) : Option O :=
  (m.nodes.get? i).map (fun n => n.op)

/-- The patch `shunt_one_op` builds for a node with input `i0` of fact
`infact`: one tap source, an incoming entry, a shunt of the node's output
0 to the tap, and an *empty* obliterate list. -/
def sliceShuntPatchOf (i0 : OutletId) (infact : TypedFact) (node_id : Nat) :
    TypedModelPatch :=
  ⟨⟨[⟨0, "incoming-" ++ toString i0.node ++ "/" ++ toString i0.slot, [],
      .source, [⟨infact, []⟩]⟩], [], [], []⟩,
   [(⟨0, 0⟩, i0)], [(⟨node_id, 0⟩, ⟨0, 0⟩)], []⟩

/-- The S4 instance of `sliceShuntPatchOf`. -/
def sliceShuntPatchC7 : TypedModelPatch :=
  sliceShuntPatchOf ⟨0, 0⟩ ⟨[TDim.Val 2, TDim.Val 5]⟩ 1

/-! ## Theorems -/

namespace TDim

mutual
theorem beq_refl : (a : TDim) → beq a a = true
  | Sym _ => by simp [beq]
  | Val _ => by simp [beq]
  | Add l => by simp [beq, beqList_refl l]
  | Mul _ a => by simp [beq, beq_refl a]
  | Div a _ => by simp [beq, beq_refl a]
theorem beqList_refl : (l : List TDim) → beqList l l = true
  | [] => by simp [beqList]
  | a :: as_ => by simp [beqList, beq_refl a, beqList_refl as_]
end

end TDim

/-- Truncating and flooring division agree on nonnegative dividends
(and nonnegative divisors, here a `Nat`). -/
theorem tdiv_eq_fdiv_of_nonneg (v : Int) (d : Nat) (h : 0 ≤ v) :
    v.tdiv d = v.fdiv d := by
  rw [Int.tdiv_eq_ediv h (Int.ofNat_nonneg d), Int.fdiv_eq_ediv v (Int.ofNat_nonneg d)]

/-- C2 (counterexample). The first identity of the claimed corpus,
`(S-1+1).div_ceil(1) = 1`, is false on the code: the left side reduces to
the symbol `S`, not to the literal `1`. (The corpus in the source's own
test `conv2d_ex_1` uses the literal `1`, not `S`.) -/
theorem claim_C2_counterexample :
    ((TDim.s.subT (.Val 1)).addT (.Val 1)).div_ceil 1 = TDim.Sym 'S'
    ∧ TDim.Sym 'S' ≠ TDim.Val 1 :=
  ⟨rfl, fun h => TDim.noConfusion h⟩

/-- C2 (amended): with the first identity read on the literal `1` as in
the source's test corpus (`(1-1+1).div_ceil(1) = 1`), every identity of
the determinism-contract corpus holds as an equality of reduced `TDim`
trees: `(1-1+1).div_ceil(1) = 1`, `(S+23)/2 - 1 = (S+21)/2`,
`((S+1)/2+1)/2 = (S+3)/4`, and `(S/2)·(-4) = (S/2)·(-4)/1`. -/
theorem claim_C2_corpus_reduces_equal :
    (((TDim.Val 1).subT (.Val 1)).addT (.Val 1)).div_ceil 1 = TDim.Val 1
    ∧ ((TDim.s.addT (.Val 23)).divT 2).subT (.Val 1)
      = (TDim.s.addT (.Val 21)).divT 2
    ∧ (((TDim.s.addT (.Val 1)).divT 2).addT (.Val 1)).divT 2
      = (TDim.s.addT (.Val 3)).divT 4
    ∧ (TDim.s.divT 2).mulT (-4) = ((TDim.s.divT 2).mulT (-4)).divT 1 :=
  ⟨rfl, rfl, rfl, rfl⟩

/-- C8 (counterexample). TDim division is not floor division: evaluating
`Val(-3) / 2` (through the reducing `/` operator, and likewise through a
bare `Div` node) gives `-1`, the truncation toward zero, while the floor
is `-2`. Moreover no reading of the claim as "the reduced `e / d`
truncates" survives either: `(S+2)/2` reduces to `1 + S/2`, which at
`S = -1` evaluates to `1`, while `e = S+2` evaluates to `1` and
`1 t/ 2 = 0`. -/
theorem claim_C8_counterexample :
    ((TDim.Val (-3)).divT 2).to_integer = .ok (-1)
    ∧ Int.fdiv (-3) 2 = -2
    ∧ (-1 : Int) ≠ -2
    ∧ ((TDim.s.addT (.Val 2)).divT 2).eval_with
        (fun c => if c == 'S' then some (-1) else none) = .ok 1
    ∧ (TDim.s.addT (.Val 2)).eval_with
        (fun c => if c == 'S' then some (-1) else none) = .ok 1
    ∧ Int.tdiv 1 2 = 0
    ∧ (1 : Int) ≠ 0 :=
  ⟨rfl, rfl, by decide, rfl, rfl, rfl, by decide⟩

/-- C8 (amended): TDim division by a positive integer is *truncated*
division (Rust `i32` semantics, rounding toward zero): for every TDim `e`,
divisor `d` and complete symbol binding under which `e` evaluates to `v`,
the `Div(e, d)` node evaluates to `v` truncated-divided by `d`; this
coincides with the floor exactly when `v` is nonnegative. -/
theorem claim_C8_div_truncates (e : TDim) (d : Nat) (env : Char → Option Int)
    (v : Int) (h : e.eval_with env = .ok v) :
    (TDim.Div e d).eval_with env = .ok (v.tdiv d)
    ∧ (0 ≤ v → v.tdiv d = v.fdiv d) := by
  refine ⟨?_, fun hv => tdiv_eq_fdiv_of_nonneg v d hv⟩
  simp [TDim.eval_with, h]

/-- Witness for `claim_C8_div_truncates` at `e = S + 2`, `S = 5`, `d = 2`. -/
theorem claim_C8_div_truncates_witness :
    (TDim.Div (TDim.Add [TDim.s, .Val 2]) 2).eval_with
      (fun c => if c == 'S' then some 5 else none) = .ok ((7 : Int).tdiv 2)
    ∧ (0 ≤ (7 : Int) → (7 : Int).tdiv 2 = (7 : Int).fdiv 2) :=
  claim_C8_div_truncates (TDim.Add [TDim.s, .Val 2]) 2
    (fun c => if c == 'S' then some 5 else none) 7 rfl

/-- C10: evaluating the `Dummy` op (the op installed in obliterated nodes)
returns an error for every list of input tensors; it never produces
outputs. -/
theorem claim_C10_dummy_eval_errors (T : Type) (inputs : List T) :
    Dummy.eval T inputs
      = .error "eval() called on a Dummy op. This is a bug." :=
  rfl

theorem getD_range_eq_self (b : List α) (d0 : α) :
    (List.range b.length).map (fun i => b.getD i d0) = b := by
  induction b with
  | nil => rfl
  | cons a t ih =>
    rw [List.length_cons, List.range_succ_eq_map, List.map_cons, List.map_map]
    simp only [List.getD_cons_zero, Function.comp_def, Nat.succ_eq_add_one,
      List.getD_cons_succ]
    rw [ih]

/-- The emitted tensor of `eval_t` collapses, in both branches, to a
prefix of `old buffer ++ input`. -/
theorem eval_t_output (d o : Nat) (bs : List Nat) (ax : Nat)
    (st : DelayState α) (input : List α) (p : Nat)
    (hb : st.buffer.length = d + o) (hi : input.length = p) :
    (DelayState.eval_t ⟨bs, ax, d, o⟩ st input).2
      = (st.buffer ++ input).take (p + o) := by
  simp only [DelayState.eval_t, hi]
  by_cases hcase : d < p
  · rw [if_pos hcase, List.take_append_eq_append_take, hb]
    have h1 : p + o - (p - d) = d + o := by omega
    have h2 : p + o - (d + o) = p - d := by omega
    rw [h1, h2, List.take_of_length_le (le_of_eq hb),
      List.take_of_length_le (by omega : st.buffer.length ≤ p + o)]
  · rw [if_neg hcase, List.take_append_eq_append_take, hb,
      Nat.sub_eq_zero_of_le (by omega : p + o ≤ d + o), List.take_zero,
      List.append_nil]

/-- The maintained buffer of `eval_t` collapses, in both branches, to
`(old buffer ++ input).drop p`. -/
theorem eval_t_buffer (d o : Nat) (bs : List Nat) (ax : Nat)
    (st : DelayState α) (input : List α) (p : Nat)
    (hb : st.buffer.length = d + o) (hi : input.length = p) :
    (DelayState.eval_t ⟨bs, ax, d, o⟩ st input).1
      = ⟨(st.buffer ++ input).drop p⟩ := by
  simp only [DelayState.eval_t, hi]
  by_cases hcase : d + o < p
  · rw [if_pos hcase, List.drop_append_eq_append_drop, hb,
      List.drop_eq_nil_of_le (by omega : st.buffer.length ≤ p), List.nil_append]
  · rw [if_neg hcase]
    have h1 : (st.buffer.drop p ++ st.buffer.take p).take (d + o - p)
        = st.buffer.drop p := by
      rw [List.take_append_eq_append_take, List.length_drop, hb, Nat.sub_self,
        List.take_zero, List.append_nil,
        List.take_of_length_le (by simp [hb] : (st.buffer.drop p).length ≤ d + o - p)]
    rw [h1, List.drop_append_eq_append_drop, hb,
      Nat.sub_eq_zero_of_le (by omega : p ≤ d + o), List.drop_zero]

theorem drop_left_append (l1 l2 : List α) (p : Nat) (h : l1.length = p) :
    (l1 ++ l2).drop p = l2 := by
  rw [List.drop_append_eq_append_drop, h, Nat.sub_self, List.drop_zero,
    List.drop_eq_nil_of_le (le_of_eq h), List.nil_append]

/-- The buffer after `k` pulses holds the virtual stream (initial buffer
contents, then the input stream) at positions `[k·p, k·p + d + o)`. -/
theorem delayStateAfter_buffer (d0 : α) (d o p : Nat) (bs : List Nat)
    (ax : Nat) (b : List α) (s : Nat → α) (hb : b.length = d + o) (k : Nat) :
    (delayStateAfter ⟨bs, ax, d, o⟩ ⟨b⟩ s p k).buffer
      = (List.range (d + o)).map (fun i =>
          if k * p + i < d + o then b.getD (k * p + i) d0
          else s (k * p + i - (d + o))) := by
  induction k with
  | zero =>
    simp only [delayStateAfter, Nat.zero_mul, Nat.zero_add]
    rw [List.map_congr_left (fun i hi => by
      rw [if_pos (by rwa [List.mem_range] at hi)]), ← hb, getD_range_eq_self]
  | succ k ih =>
    have hlen : (delayStateAfter ⟨bs, ax, d, o⟩ ⟨b⟩ s p k).buffer.length
        = d + o := by rw [ih]; simp
    rw [delayStateAfter, eval_t_buffer d o bs ax _ _ p hlen (by
      simp [streamChunk])]
    simp only
    rw [ih]
    have hchunk : streamChunk s p k = (List.range p).map (fun j =>
        if (d + o) + (k * p + j) < d + o then b.getD ((d + o) + (k * p + j)) d0
        else s ((d + o) + (k * p + j) - (d + o))) := by
      unfold streamChunk
      apply List.map_congr_left
      intro j _
      rw [if_neg (by omega)]
      congr 1
      omega
    rw [hchunk]
    have hsplit : (List.range (d + o)).map (fun i =>
          if k * p + i < d + o then b.getD (k * p + i) d0
          else s (k * p + i - (d + o)))
        ++ (List.range p).map (fun j =>
          if (d + o) + (k * p + j) < d + o then b.getD ((d + o) + (k * p + j)) d0
          else s ((d + o) + (k * p + j) - (d + o)))
        = (List.range (d + o + p)).map (fun i =>
          if k * p + i < d + o then b.getD (k * p + i) d0
          else s (k * p + i - (d + o))) := by
      rw [List.range_add (d + o) p, List.map_append, List.map_map]
      congr 1
      apply List.map_congr_left
      intro j _
      simp only [Function.comp_def]
      rw [show k * p + (d + o + j) = d + o + (k * p + j) from by omega]
    rw [hsplit]
    have hresplit : d + o + p = p + (d + o) := by omega
    rw [hresplit, List.range_add p (d + o), List.map_append,
      drop_left_append _ _ p (by simp), List.map_map]
    apply List.map_congr_left
    intro i _
    simp only [Function.comp_def]
    rw [show k * p + (p + i) = (k + 1) * p + i from by ring]

/-- C1 (amended): for a rank-1 `Delay` with axis 0, pulse `p`, delay `d`,
overlap `o`, and an initial (uninitialized, hence arbitrary) buffer `b` of
length `d + o`, the `k`-th emitted tensor has one element per position
`j < p + o`; it equals the input stream at index `k·p + j - (d + o)`
(i.e. the window `[k·p - d - o, k·p - d + p)`) whenever that index is in
range, and the (unspecified) initial buffer contents at earlier positions.
In particular the claimed zero-filling before the delay does not hold. -/
theorem claim_C1_delay_window (α : Type) (d0 : α) (d o p : Nat)
    (bs : List Nat) (ax : Nat) (b : List α) (s : Nat → α) (k : Nat)
    (hb : b.length = d + o) :
    delayOutput ⟨bs, ax, d, o⟩ ⟨b⟩ s p k
      = (List.range (p + o)).map (fun j =>
          if k * p + j < d + o then b.getD (k * p + j) d0
          else s (k * p + j - (d + o))) := by
  unfold delayOutput
  have hlen : (delayStateAfter ⟨bs, ax, d, o⟩ ⟨b⟩ s p k).buffer.length
      = d + o := by rw [delayStateAfter_buffer d0 d o p bs ax b s hb k]; simp
  rw [eval_t_output d o bs ax _ _ p hlen (by simp [streamChunk])]
  rw [delayStateAfter_buffer d0 d o p bs ax b s hb k]
  have hchunk : streamChunk s p k = (List.range p).map (fun j =>
      if (d + o) + (k * p + j) < d + o then b.getD ((d + o) + (k * p + j)) d0
      else s ((d + o) + (k * p + j) - (d + o))) := by
    unfold streamChunk
    apply List.map_congr_left
    intro j _
    rw [if_neg (by omega)]
    congr 1
    omega
  rw [hchunk]
  have hsplit : (List.range (d + o)).map (fun i =>
        if k * p + i < d + o then b.getD (k * p + i) d0
        else s (k * p + i - (d + o)))
      ++ (List.range p).map (fun j =>
        if (d + o) + (k * p + j) < d + o then b.getD ((d + o) + (k * p + j)) d0
        else s ((d + o) + (k * p + j) - (d + o)))
      = (List.range (d + o + p)).map (fun i =>
        if k * p + i < d + o then b.getD (k * p + i) d0
        else s (k * p + i - (d + o))) := by
    rw [List.range_add (d + o) p, List.map_append, List.map_map]
    congr 1
    apply List.map_congr_left
    intro j _
    simp only [Function.comp_def]
    rw [show k * p + (d + o + j) = d + o + (k * p + j) from by omega]
  rw [hsplit, ← List.map_take, List.take_range,
    min_eq_left (by omega : p + o ≤ d + o + p)]

/-- Witness for `claim_C1_delay_window`: pulse 4, delay 1, overlap 0,
initial buffer `[99]`, identity stream, second pulse. -/
theorem claim_C1_delay_window_witness :
    delayOutput ⟨[1], 0, 1, 0⟩ ⟨[99]⟩ (fun n => n) 4 1
      = (List.range (4 + 0)).map (fun j =>
          if 1 * 4 + j < 1 + 0 then [99].getD (1 * 4 + j) 0
          else (fun n => n) (1 * 4 + j - (1 + 0))) :=
  claim_C1_delay_window Nat 0 1 0 4 [1] 0 [99] (fun n => n) 1 rfl

/-- C1 (counterexample). With pulse 4, delay 1, overlap 0 and inputs
`[0..4)`, `[4..8)`, `[8..12)`, the first emitted tensor is *not*
`[0,0,1,2]`: position 0 is read from the uninitialized buffer (the
source's own test skips it). With initial buffer contents `[99]` the
first output is `[99,0,1,2]`; the second and third outputs are
`[3,4,5,6]` and `[7,8,9,10]` as claimed. -/
theorem claim_C1_counterexample :
    delayOutput ⟨[1], 0, 1, 0⟩ ⟨[99]⟩ (fun n => n) 4 0 = [99, 0, 1, 2]
    ∧ [99, 0, 1, 2] ≠ [0, 0, 1, 2]
    ∧ delayOutput ⟨[1], 0, 1, 0⟩ ⟨[99]⟩ (fun n => n) 4 1 = [3, 4, 5, 6]
    ∧ delayOutput ⟨[1], 0, 1, 0⟩ ⟨[99]⟩ (fun n => n) 4 2 = [7, 8, 9, 10] :=
  ⟨rfl, by decide, rfl, rfl⟩


/-! ### Patch apply and translator theorems -/

theorem setNode_io (m : ModelImpl F O) (i : Nat) (n : BaseNode F O) :
    (m.setNode i n).inputs = m.inputs ∧ (m.setNode i n).outputs = m.outputs :=
  ⟨rfl, rfl⟩

theorem removeSuccessor_io (m : ModelImpl F O) (o : OutletId) (i : InletId) :
    (m.removeSuccessor o i).inputs = m.inputs
    ∧ (m.removeSuccessor o i).outputs = m.outputs := by
  unfold ModelImpl.removeSuccessor
  split <;> exact ⟨rfl, rfl⟩

theorem disconnectPrev_io (m : ModelImpl F O) (i : InletId) :
    (m.disconnectPrev i).inputs = m.inputs
    ∧ (m.disconnectPrev i).outputs = m.outputs := by
  unfold ModelImpl.disconnectPrev
  split
  · exact ⟨rfl, rfl⟩
  · split
    · exact removeSuccessor_io m _ i
    · exact ⟨rfl, rfl⟩

theorem setInputSlot_io (m : ModelImpl F O) (i : InletId) (o : OutletId) :
    (m.setInputSlot i o).inputs = m.inputs
    ∧ (m.setInputSlot i o).outputs = m.outputs := by
  unfold ModelImpl.setInputSlot
  split <;> exact ⟨rfl, rfl⟩

theorem pushSuccessor_io (m : ModelImpl F O) (o : OutletId) (i : InletId) :
    (m.pushSuccessor o i).inputs = m.inputs
    ∧ (m.pushSuccessor o i).outputs = m.outputs := by
  unfold ModelImpl.pushSuccessor
  split <;> exact ⟨rfl, rfl⟩

theorem set_outlet_label_io (m : ModelImpl F O) (o : OutletId) (l : String) :
    (m.set_outlet_label o l).inputs = m.inputs
    ∧ (m.set_outlet_label o l).outputs = m.outputs :=
  ⟨rfl, rfl⟩

/-- A successful `add_edge` touches only the node store: the model's I/O
outlet lists are unchanged. -/
theorem add_edge_io (m : ModelImpl F O) (o : OutletId) (i : InletId)
    (m2 : ModelImpl F O) (h : m.add_edge o i = .ok m2) :
    m2.inputs = m.inputs ∧ m2.outputs = m.outputs := by
  unfold ModelImpl.add_edge at h
  split at h
  · exact Except.noConfusion h
  · split at h
    · exact Except.noConfusion h
    · split at h
      · exact Except.noConfusion h
      · split at h
        · exact Except.noConfusion h
        · injection h with h
          subst h
          refine ⟨?_, ?_⟩
          · rw [(pushSuccessor_io _ _ _).1, (setInputSlot_io _ _ _).1,
              (disconnectPrev_io _ _).1]
          · rw [(pushSuccessor_io _ _ _).2, (setInputSlot_io _ _ _).2,
              (disconnectPrev_io _ _).2]

/-- Phase 1 of `apply` only appends nodes: I/O outlet lists unchanged. -/
theorem applyNodes_io (is_source : O → Bool) (nodes : List (BaseNode F O)) :
    ∀ (target : ModelImpl F O) mapping all_inputs,
      (applyNodes is_source target mapping all_inputs nodes).1.inputs
        = target.inputs
      ∧ (applyNodes is_source target mapping all_inputs nodes).1.outputs
        = target.outputs := by
  induction nodes with
  | nil => intro t mp ai; exact ⟨rfl, rfl⟩
  | cons node rest ih =>
    intro t mp ai
    unfold applyNodes
    split
    · exact ih t mp ai
    · exact ⟨(ih _ _ _).1, (ih _ _ _).2⟩

/-- The phase-2 successor-copy loop preserves the I/O outlet lists, even
when it stops at an `add_edge` error. -/
theorem addEdgesToSuccs_io (fixed_by : OutletId) (succs : List InletId) :
    ∀ (m : ModelImpl F O),
      (addEdgesToSuccs m fixed_by succs).1.inputs = m.inputs
      ∧ (addEdgesToSuccs m fixed_by succs).1.outputs = m.outputs := by
  induction succs with
  | nil => intro m; exact ⟨rfl, rfl⟩
  | cons succ rest ih =>
    intro m
    unfold addEdgesToSuccs
    split
    case _ m2 heq =>
      exact ⟨(ih m2).1.trans (add_edge_io m fixed_by succ m2 heq).1,
        (ih m2).2.trans (add_edge_io m fixed_by succ m2 heq).2⟩
    case _ e heq => exact ⟨rfl, rfl⟩

/-- One shunt of phase 2 preserves the input outlets exactly and the
output-outlet count (slots may be rewritten, never added or removed). -/
theorem applyShunt_io (target : ModelImpl F O)
    (mapping : List (OutletId × OutletId)) (outlet by_ : OutletId) :
    (applyShunt target mapping outlet by_).1.inputs = target.inputs
    ∧ (applyShunt target mapping outlet by_).1.outputs.length
      = target.outputs.length := by
  unfold applyShunt
  split
  · exact ⟨rfl, rfl⟩
  case _ fixed_by hlook =>
    split
    · exact ⟨rfl, rfl⟩
    case _ n hn =>
      split
      · exact ⟨rfl, rfl⟩
      case _ of hof =>
        split
        case _ t2 e heq =>
          have h2 := addEdgesToSuccs_io fixed_by of.successors target
          rw [heq] at h2
          exact ⟨h2.1, by rw [← h2.2]⟩
        case _ t2 heq =>
          have h2 := addEdgesToSuccs_io fixed_by of.successors target
          rw [heq] at h2
          dsimp only
          split
          · refine ⟨h2.1, ?_⟩
            show (t2.outputs.map
              (fun o => if o = outlet then fixed_by else o)).length
              = target.outputs.length
            rw [List.length_map, h2.2]
          · refine ⟨h2.1, ?_⟩
            show (t2.outputs.map
              (fun o => if o = outlet then fixed_by else o)).length
              = target.outputs.length
            rw [List.length_map, h2.2]

/-- Phase 2 of `apply` preserves input outlets and output-outlet count. -/
theorem applyShunts_io (mapping : List (OutletId × OutletId))
    (shunts : List (OutletId × OutletId)) :
    ∀ (target : ModelImpl F O),
      (applyShunts target mapping shunts).1.inputs = target.inputs
      ∧ (applyShunts target mapping shunts).1.outputs.length
        = target.outputs.length := by
  induction shunts with
  | nil => intro t; exact ⟨rfl, rfl⟩
  | cons sh rest ih =>
    intro t
    unfold applyShunts
    split
    case _ t2 heq =>
      have h1 := applyShunt_io t mapping sh.1 sh.2
      rw [heq] at h1
      exact ⟨(ih t2).1.trans h1.1, (ih t2).2.trans h1.2⟩
    case _ t2 e heq =>
      have h1 := applyShunt_io t mapping sh.1 sh.2
      rw [heq] at h1
      exact ⟨h1.1, h1.2⟩

/-- The phase-3 wiring loop preserves the I/O outlet lists. -/
theorem applyWireInputs_io (mapping : List (OutletId × OutletId))
    (node : Nat) (inputs : List OutletId) :
    ∀ (m : ModelImpl F O) (ix : Nat),
      (applyWireInputs m mapping node ix inputs).1.inputs = m.inputs
      ∧ (applyWireInputs m mapping node ix inputs).1.outputs = m.outputs := by
  induction inputs with
  | nil => intro m ix; exact ⟨rfl, rfl⟩
  | cons input rest ih =>
    intro m ix
    unfold applyWireInputs
    split
    · exact ⟨rfl, rfl⟩
    · split
      case _ m2 heq =>
        exact ⟨(ih m2 (ix + 1)).1.trans (add_edge_io m _ _ m2 heq).1,
          (ih m2 (ix + 1)).2.trans (add_edge_io m _ _ m2 heq).2⟩
      case _ e heq => exact ⟨rfl, rfl⟩

/-- Phase 3 of `apply` preserves the I/O outlet lists. -/
theorem applyInputs_io (mapping : List (OutletId × OutletId))
    (all_inputs : List (Nat × List OutletId)) :
    ∀ (m : ModelImpl F O),
      (applyInputs m mapping all_inputs).1.inputs = m.inputs
      ∧ (applyInputs m mapping all_inputs).1.outputs = m.outputs := by
  induction all_inputs with
  | nil => intro m; exact ⟨rfl, rfl⟩
  | cons ni rest ih =>
    intro m
    unfold applyInputs
    split
    case _ m2 heq =>
      have h1 := applyWireInputs_io (F := F) (O := O) mapping ni.1 ni.2 m 0
      rw [heq] at h1
      exact ⟨(ih m2).1.trans h1.1, (ih m2).2.trans h1.2⟩
    case _ m2 e heq =>
      have h1 := applyWireInputs_io (F := F) (O := O) mapping ni.1 ni.2 m 0
      rw [heq] at h1
      exact h1

/-- Phase 4 of `apply` preserves the I/O outlet lists. -/
theorem applyObliterate_io (dummy : O) (ids : List Nat) :
    ∀ (m : ModelImpl F O),
      (applyObliterate dummy m ids).1.inputs = m.inputs
      ∧ (applyObliterate dummy m ids).1.outputs = m.outputs := by
  induction ids with
  | nil => intro m; exact ⟨rfl, rfl⟩
  | cons n rest ih =>
    intro m
    unfold applyObliterate
    split
    · exact ⟨rfl, rfl⟩
    · exact ⟨(ih _).1, (ih _).2⟩

/-- Whatever the outcome, `ModelPatch::apply` leaves the target's input
outlets unchanged and its output-outlet count unchanged. -/
theorem apply_io (is_source : O → Bool) (dummy : O) (patch : ModelPatch F O)
    (target : ModelImpl F O) :
    (patch.apply is_source dummy target).1.inputs = target.inputs
    ∧ (patch.apply is_source dummy target).1.outputs.length
      = target.outputs.length := by
  unfold ModelPatch.apply
  have hN := applyNodes_io is_source patch.model.nodes target patch.incoming []
  generalize hA :
    applyNodes is_source target patch.incoming [] patch.model.nodes = A at hN ⊢
  obtain ⟨Am, Amp, Aai⟩ := A
  have hS := applyShunts_io (F := F) (O := O) Amp patch.shunt_outlet_by Am
  dsimp only
  split
  case _ t2 e heqS =>
    rw [heqS] at hS
    exact ⟨hS.1.trans hN.1, hS.2.trans (congrArg List.length hN.2)⟩
  case _ t2 heqS =>
    rw [heqS] at hS
    have hI := applyInputs_io (F := F) (O := O) Amp Aai t2
    split
    case _ t3 e heqI =>
      rw [heqI] at hI
      exact ⟨hI.1.trans (hS.1.trans hN.1),
        (congrArg List.length hI.2).trans
          (hS.2.trans (congrArg List.length hN.2))⟩
    case _ t3 heqI =>
      rw [heqI] at hI
      have hO := applyObliterate_io (F := F) (O := O) dummy
        patch.obliterate t3
      exact ⟨hO.1.trans (hI.1.trans (hS.1.trans hN.1)),
        (congrArg List.length hO.2).trans
          ((congrArg List.length hI.2).trans
            (hS.2.trans (congrArg List.length hN.2)))⟩

/-- C9: `ModelPatch::apply` preserves the host model's I/O arity: each of
its four phases (cloning patch nodes, applying shunts, wiring cloned
nodes' inputs, obliterating nodes) — whether the phase succeeds or stops
at an error — preserves the number of the target's input outlets and
output outlets, and so does the full `apply`, in particular on successful
return. This is the property the source's `debug_assert_eq!` checks
between phases. -/
theorem claim_C9_apply_preserves_arity (F O : Type) (is_source : O → Bool)
    (dummy : O) (patch : ModelPatch F O) (target : ModelImpl F O) :
    ((applyNodes is_source target patch.incoming []
        patch.model.nodes).1.inputs.length = target.inputs.length
      ∧ (applyNodes is_source target patch.incoming []
        patch.model.nodes).1.outputs.length = target.outputs.length)
    ∧ (∀ (m : ModelImpl F O) mapping,
        (applyShunts m mapping patch.shunt_outlet_by).1.inputs.length
          = m.inputs.length
        ∧ (applyShunts m mapping patch.shunt_outlet_by).1.outputs.length
          = m.outputs.length)
    ∧ (∀ (m : ModelImpl F O) mapping all_inputs,
        (applyInputs m mapping all_inputs).1.inputs.length
          = m.inputs.length
        ∧ (applyInputs m mapping all_inputs).1.outputs.length
          = m.outputs.length)
    ∧ (∀ (m : ModelImpl F O),
        (applyObliterate dummy m patch.obliterate).1.inputs.length
          = m.inputs.length
        ∧ (applyObliterate dummy m patch.obliterate).1.outputs.length
          = m.outputs.length)
    ∧ ((patch.apply is_source dummy target).1.inputs.length
        = target.inputs.length
      ∧ (patch.apply is_source dummy target).1.outputs.length
        = target.outputs.length) := by
  have hN := applyNodes_io is_source patch.model.nodes target patch.incoming []
  refine ⟨⟨congrArg List.length hN.1, congrArg List.length hN.2⟩, ?_, ?_, ?_, ?_⟩
  · intro m mapping
    have h := applyShunts_io (F := F) (O := O) mapping
      patch.shunt_outlet_by m
    exact ⟨congrArg List.length h.1, h.2⟩
  · intro m mapping all_inputs
    have h := applyInputs_io (F := F) (O := O) mapping all_inputs m
    exact ⟨congrArg List.length h.1, congrArg List.length h.2⟩
  · intro m
    have h := applyObliterate_io (F := F) (O := O) dummy patch.obliterate m
    exact ⟨congrArg List.length h.1, congrArg List.length h.2⟩
  · have h := apply_io is_source dummy patch target
    exact ⟨congrArg List.length h.1, h.2⟩

/-- C3 (counterexample). `ModelPatch::apply` is not atomic: applying
`danglingPatch` (whose cloned node taps a nonexistent host outlet) to a
one-node host returns an error from phase 3, but phase 1 has already
cloned a node into the host — the model is left mutated. -/
theorem claim_C3_counterexample :
    (danglingPatch.apply (fun o => o == 0) 1 natSourceModel).2
      = .error "add_edge: invalid producer node"
    ∧ (danglingPatch.apply (fun o => o == 0) 1 natSourceModel).1.nodes.length
      = 2
    ∧ natSourceModel.nodes.length = 1
    ∧ (2 : Nat) ≠ 1 :=
  ⟨rfl, rfl, rfl, by decide⟩

/-- C3 (amended): `apply` is not atomic — its validity checks are
interleaved with structural changes, and an erroring `apply` may leave the
target partially mutated (already-cloned nodes and already-copied edges
remain). What does hold on every error path is that the target's I/O
arity is preserved. -/
theorem claim_C3_apply_error_keeps_arity (F O : Type) (is_source : O → Bool)
    (dummy : O) (patch : ModelPatch F O) (target : ModelImpl F O)
    (e : String)
    (_h : (patch.apply is_source dummy target).2 = .error e) :
    (patch.apply is_source dummy target).1.inputs.length
      = target.inputs.length
    ∧ (patch.apply is_source dummy target).1.outputs.length
      = target.outputs.length :=
  (claim_C9_apply_preserves_arity F O is_source dummy patch target).2.2.2.2

/-- Witness for `claim_C3_apply_error_keeps_arity` on the concrete
dangling patch. -/
theorem claim_C3_apply_error_keeps_arity_witness :
    (danglingPatch.apply (fun o => o == 0) 1 natSourceModel).1.inputs.length
      = natSourceModel.inputs.length
    ∧ (danglingPatch.apply (fun o => o == 0) 1
        natSourceModel).1.outputs.length
      = natSourceModel.outputs.length :=
  claim_C3_apply_error_keeps_arity Nat Nat (fun o => o == 0) 1
    danglingPatch natSourceModel "add_edge: invalid producer node" rfl

/-- Inversion for `mapOutlets`: on success the result has one entry per
source outlet, each the image of the corresponding outlet under the
mapping. -/
theorem mapOutlets_ok (mp : List (OutletId × OutletId)) :
    ∀ (l l2 : List OutletId), mapOutlets mp l = .ok l2 →
      l2.length = l.length
      ∧ ∀ k o, l.get? k = some o →
          ∃ o2, mp.lookup o = some o2 ∧ l2.get? k = some o2 := by
  intro l
  induction l with
  | nil =>
    intro l2 h
    injection h with h
    subst h
    exact ⟨rfl, fun k o hk => by cases hk⟩
  | cons o rest ih =>
    intro l2 h
    unfold mapOutlets at h
    split at h
    · exact Except.noConfusion h
    case _ o2 hlook =>
      simp only [bind, Except.bind, pure, Except.pure] at h
      split at h
      · exact Except.noConfusion h
      case _ l2r hrec =>
        injection h with h
        subst h
        refine ⟨by simp [(ih l2r hrec).1], ?_⟩
        intro k ko hk
        match k, hk with
        | 0, hk =>
          injection hk with hk
          subst hk
          exact ⟨o2, hlook, rfl⟩
        | k + 1, hk =>
          exact (ih l2r hrec).2 k ko hk

/-- C4: for every translator and every source model on which
`translate_model_with_mappings` succeeds, the destination's
`input_outlets` and `output_outlets` are, slot for slot and in order,
the images under the returned outlet mapping of the source's
`input_outlets` and `output_outlets`; in particular every source input
outlet is in the mapping (unused inputs having been translated by the
dedicated pass), and the I/O signature lengths are preserved exactly. -/
theorem claim_C4_translator_io (F O F2 O2 : Type)
    (tn : TranslateNode F O F2 O2) (source : ModelImpl F O)
    (dst : ModelImpl F2 O2) (mapping : List (OutletId × OutletId))
    (h : translate_model_with_mappings tn source = .ok (dst, mapping)) :
    dst.inputs.length = source.inputs.length
    ∧ dst.outputs.length = source.outputs.length
    ∧ (∀ k o, source.inputs.get? k = some o →
        ∃ o2, mapping.lookup o = some o2 ∧ dst.inputs.get? k = some o2)
    ∧ (∀ k o, source.outputs.get? k = some o →
        ∃ o2, mapping.lookup o = some o2 ∧ dst.outputs.get? k = some o2) := by
  unfold translate_model_with_mappings at h
  simp only [ModelImpl.eval_order, bind, Except.bind, pure, Except.pure] at h
  split at h
  · exact Except.noConfusion h
  case _ st hnodes =>
    split at h
    · exact Except.noConfusion h
    case _ st2 huseless =>
      split at h
      · exact Except.noConfusion h
      case _ new_inputs hinp =>
        split at h
        · exact Except.noConfusion h
        case _ new_outputs hout =>
          injection h with h
          injection h with hm hmap
          subst hm
          subst hmap
          refine ⟨?_, ?_, ?_, ?_⟩
          · exact (mapOutlets_ok st2.2 source.inputs new_inputs hinp).1
          · exact (mapOutlets_ok st2.2 source.outputs new_outputs hout).1
          · exact (mapOutlets_ok st2.2 source.inputs new_inputs hinp).2
          · exact (mapOutlets_ok st2.2 source.outputs new_outputs hout).2

/-- Witness for `claim_C4_translator_io`: the copy translator on the
one-source model succeeds and preserves the I/O signature lengths. -/
theorem claim_C4_translator_io_witness :
    (⟨[⟨0, "source", [], 0, [⟨(7 : Nat), []⟩]⟩], [⟨0, 0⟩], [⟨0, 0⟩], []⟩ :
        ModelImpl Nat Nat).inputs.length = natSourceModel.inputs.length
    ∧ (⟨[⟨0, "source", [], 0, [⟨(7 : Nat), []⟩]⟩], [⟨0, 0⟩], [⟨0, 0⟩], []⟩ :
        ModelImpl Nat Nat).outputs.length = natSourceModel.outputs.length :=
  ⟨(claim_C4_translator_io Nat Nat Nat Nat (copyTranslateNode Nat Nat)
      natSourceModel
      ⟨[⟨0, "source", [], 0, [⟨7, []⟩]⟩], [⟨0, 0⟩], [⟨0, 0⟩], []⟩
      [(⟨0, 0⟩, ⟨0, 0⟩)] rfl).1,
    (claim_C4_translator_io Nat Nat Nat Nat (copyTranslateNode Nat Nat)
      natSourceModel
      ⟨[⟨0, "source", [], 0, [⟨7, []⟩]⟩], [⟨0, 0⟩], [⟨0, 0⟩], []⟩
      [(⟨0, 0⟩, ⟨0, 0⟩)] rfl).2.1⟩

/-! ### Obliteration theorems (C6, C7) -/

theorem opAt_setNode (m : ModelImpl F O) (j : Nat) (n : BaseNode F O)
    (hop : (m.nodes.get? j).map (fun x => x.op) = some n.op) :
    ∀ i, opAt (m.setNode j n) i = opAt m i := by
  intro i
  unfold opAt ModelImpl.setNode
  by_cases hij : j = i
  · subst hij
    rw [List.get?_set_eq]
    cases hm : m.nodes.get? j with
    | none => simp
    | some x =>
      rw [hm] at hop
      simp at hop ⊢
      exact hop.symm
  · rw [List.get?_set_ne _ _ hij]

theorem opAt_removeSuccessor (m : ModelImpl F O) (o : OutletId)
    (i2 : InletId) : ∀ i, opAt (m.removeSuccessor o i2) i = opAt m i := by
  intro i
  unfold ModelImpl.removeSuccessor
  split
  · rfl
  case _ n hn => exact opAt_setNode m o.node _ (by rw [hn]; rfl) i

theorem opAt_disconnectPrev (m : ModelImpl F O) (i2 : InletId) :
    ∀ i, opAt (m.disconnectPrev i2) i = opAt m i := by
  intro i
  unfold ModelImpl.disconnectPrev
  split
  · rfl
  · split
    · exact opAt_removeSuccessor m _ i2 i
    · rfl

theorem opAt_setInputSlot (m : ModelImpl F O) (i2 : InletId)
    (o : OutletId) : ∀ i, opAt (m.setInputSlot i2 o) i = opAt m i := by
  intro i
  unfold ModelImpl.setInputSlot
  split
  · rfl
  case _ c2 hc => exact opAt_setNode m i2.node _ (by rw [hc]; rfl) i

theorem opAt_pushSuccessor (m : ModelImpl F O) (o : OutletId)
    (i2 : InletId) : ∀ i, opAt (m.pushSuccessor o i2) i = opAt m i := by
  intro i
  unfold ModelImpl.pushSuccessor
  split
  · rfl
  case _ p2 hp => exact opAt_setNode m o.node _ (by rw [hp]; rfl) i

theorem opAt_add_edge (m : ModelImpl F O) (o : OutletId) (i2 : InletId)
    (m2 : ModelImpl F O) (h : m.add_edge o i2 = .ok m2) :
    ∀ i, opAt m2 i = opAt m i := by
  intro i
  unfold ModelImpl.add_edge at h
  split at h
  · exact Except.noConfusion h
  · split at h
    · exact Except.noConfusion h
    · split at h
      · exact Except.noConfusion h
      · split at h
        · exact Except.noConfusion h
        · injection h with h
          subst h
          rw [opAt_pushSuccessor, opAt_setInputSlot, opAt_disconnectPrev]

theorem opAt_addEdgesToSuccs (fixed_by : OutletId) (succs : List InletId) :
    ∀ (m : ModelImpl F O) i,
      opAt (addEdgesToSuccs m fixed_by succs).1 i = opAt m i := by
  induction succs with
  | nil => intro m i; rfl
  | cons succ rest ih =>
    intro m i
    unfold addEdgesToSuccs
    split
    case _ m2 heq =>
      exact (ih m2 i).trans (opAt_add_edge m fixed_by succ m2 heq i)
    case _ e heq => rfl

theorem opAt_applyShunt (target : ModelImpl F O)
    (mapping : List (OutletId × OutletId)) (outlet by_ : OutletId) :
    ∀ i, opAt (applyShunt target mapping outlet by_).1 i = opAt target i := by
  intro i
  unfold applyShunt
  split
  · rfl
  case _ fixed_by hlook =>
    split
    · rfl
    case _ n hn =>
      split
      · rfl
      case _ of hof =>
        split
        case _ t2 e heq =>
          have h2 := opAt_addEdgesToSuccs fixed_by of.successors target i
          rw [heq] at h2
          exact h2
        case _ t2 heq =>
          have h2 := opAt_addEdgesToSuccs fixed_by of.successors target i
          rw [heq] at h2
          dsimp only
          split
          · exact h2
          · exact h2

theorem opAt_applyShunts (mapping : List (OutletId × OutletId))
    (shunts : List (OutletId × OutletId)) :
    ∀ (target : ModelImpl F O) i,
      opAt (applyShunts target mapping shunts).1 i = opAt target i := by
  induction shunts with
  | nil => intro t i; rfl
  | cons sh rest ih =>
    intro t i
    unfold applyShunts
    split
    case _ t2 heq =>
      have h1 := opAt_applyShunt t mapping sh.1 sh.2 i
      rw [heq] at h1
      exact (ih t2 i).trans h1
    case _ t2 e heq =>
      have h1 := opAt_applyShunt t mapping sh.1 sh.2 i
      rw [heq] at h1
      exact h1

theorem opAt_applyWireInputs (mapping : List (OutletId × OutletId))
    (node : Nat) (inputs : List OutletId) :
    ∀ (m : ModelImpl F O) (ix : Nat) i,
      opAt (applyWireInputs m mapping node ix inputs).1 i = opAt m i := by
  induction inputs with
  | nil => intro m ix i; rfl
  | cons input rest ih =>
    intro m ix i
    unfold applyWireInputs
    split
    · rfl
    · split
      case _ m2 heq =>
        exact (ih m2 (ix + 1) i).trans (opAt_add_edge m _ _ m2 heq i)
      case _ e heq => rfl

theorem opAt_applyInputs (mapping : List (OutletId × OutletId))
    (all_inputs : List (Nat × List OutletId)) :
    ∀ (m : ModelImpl F O) i,
      opAt (applyInputs m mapping all_inputs).1 i = opAt m i := by
  induction all_inputs with
  | nil => intro m i; rfl
  | cons ni rest ih =>
    intro m i
    unfold applyInputs
    split
    case _ m2 heq =>
      have h1 := opAt_applyWireInputs (F := F) (O := O) mapping ni.1 ni.2 m 0 i
      rw [heq] at h1
      exact (ih m2 i).trans h1
    case _ m2 e heq =>
      have h1 := opAt_applyWireInputs (F := F) (O := O) mapping ni.1 ni.2 m 0 i
      rw [heq] at h1
      exact h1

theorem opAt_applyNodes (is_source : O → Bool) (nodes : List (BaseNode F O)) :
    ∀ (target : ModelImpl F O) mapping ai i, i < target.nodes.length →
      opAt (applyNodes is_source target mapping ai nodes).1 i = opAt target i := by
  induction nodes with
  | nil => intro t mp ai i hi; rfl
  | cons node rest ih =>
    intro t mp ai i hi
    unfold applyNodes
    split
    · exact ih t mp ai i hi
    · have hstep : opAt (t.add_node node.name node.op
          (node.outputs.map (fun of => of.fact))).1 i = opAt t i := by
        unfold opAt ModelImpl.add_node
        exact congrArg (Option.map _) (List.get?_append hi)
      have hlen : i < (t.add_node node.name node.op
          (node.outputs.map (fun of => of.fact))).1.nodes.length := by
        unfold ModelImpl.add_node
        simp only [List.length_append, List.length_cons, List.length_nil]
        omega
      exact (ih _ _ _ i hlen).trans hstep

/-- `apply` with an empty obliterate list never changes the op of any
pre-existing node. -/
theorem apply_ops_preserved (is_source : O → Bool) (dummy : O)
    (patch : ModelPatch F O) (target : ModelImpl F O)
    (hob : patch.obliterate = []) :
    ∀ i, i < target.nodes.length →
      opAt ((patch.apply is_source dummy target).1) i = opAt target i := by
  intro i hi
  unfold ModelPatch.apply
  rw [hob]
  have hN := opAt_applyNodes is_source patch.model.nodes target
    patch.incoming [] i hi
  generalize hA :
    applyNodes is_source target patch.incoming [] patch.model.nodes = A at hN ⊢
  obtain ⟨Am, Amp, Aai⟩ := A
  have hS := opAt_applyShunts Amp patch.shunt_outlet_by Am i
  dsimp only
  split
  case _ t2 e heqS =>
    rw [heqS] at hS
    exact hS.trans hN
  case _ t2 heqS =>
    rw [heqS] at hS
    have hI := opAt_applyInputs Amp Aai t2 i
    split
    case _ t3 e heqI =>
      rw [heqI] at hI
      exact hI.trans (hS.trans hN)
    case _ t3 heqI =>
      rw [heqI] at hI
      exact hI.trans (hS.trans hN)

/-- C6: decluttering the `Downsample{axis=0, stride=2, modulo=0}` node of
the S5 model (its single predecessor being `Slice{axis=0, start=4,
end=20}`) produces exactly the patch that taps the slice's input, applies
a new `Downsample{axis=0, stride=2, modulo=0}` first (4 ≡ 0 mod 2), then
a `Slice{axis=0, start=2, end=10}` whose output shunts the original
downsample's outlet. -/
theorem claim_C6_downsample_over_slice :
    Downsample.declutter 0 2 0 cropDownModel
      ⟨2, "down", [⟨1, 0⟩], .downsample 0 2 0, [⟨⟨[TDim.Val 8]⟩, []⟩]⟩
      = .ok (some
        ⟨⟨[⟨0, "incoming-0/0", [], .source, [⟨⟨[TDim.s]⟩, [⟨1, 0⟩]⟩]⟩,
           ⟨1, "down", [⟨0, 0⟩], .downsample 0 2 0,
             [⟨⟨[TDim.Div (TDim.Add [TDim.s, TDim.Val 1]) 2]⟩, [⟨2, 0⟩]⟩]⟩,
           ⟨2, "crop", [⟨1, 0⟩], .slice 0 (TDim.Val 2) (TDim.Val 10),
             [⟨⟨[TDim.Val 8]⟩, []⟩]⟩],
          [], [], []⟩,
         [(⟨0, 0⟩, ⟨0, 0⟩)], [(⟨2, 0⟩, ⟨2, 0⟩)], []⟩) :=
  rfl

/-- C7 (counterexample). For the S4 model, `Slice::declutter` does return
the shunting patch, and applying it succeeds — but it does *not*
obliterate the slice node: the patch's obliterate list is empty, so after
`apply` node 1 still carries its `Slice` op, not `Dummy`. -/
theorem claim_C7_counterexample :
    Slice.declutter 1 (TDim.Val 0) (TDim.Val 5) sliceShuntModel
      ⟨1, "slice", [⟨0, 0⟩], .slice 1 (TDim.Val 0) (TDim.Val 5),
        [⟨⟨[TDim.Val 2, TDim.Val 5]⟩, []⟩]⟩
      = .ok (some sliceShuntPatchC7)
    ∧ (sliceShuntPatchC7.apply TypedOpKind.is_source TypedOpKind.dummy
        sliceShuntModel).2 = .ok ()
    ∧ opAt (sliceShuntPatchC7.apply TypedOpKind.is_source TypedOpKind.dummy
        sliceShuntModel).1 1 = some (.slice 1 (TDim.Val 0) (TDim.Val 5))
    ∧ some (TypedOpKind.slice 1 (TDim.Val 0) (TDim.Val 5))
      ≠ some TypedOpKind.dummy :=
  ⟨rfl, rfl, rfl, by simp⟩

/-- C7 (amended): for every `Slice` node with `start = 0` whose `end`
equals the input fact's dimension on the sliced axis (and whose output
fact is observationally equal to its input fact, as `shunt_outside`
checks), `declutter` returns `Some(patch)` where the patch taps the
slice's input outlet and shunts the slice's output outlet to the tap,
with an *empty* obliterate list; applying such a patch never replaces any
pre-existing node's op — in particular the slice node keeps its `Slice`
op and is not obliterated to `Dummy`. -/
theorem claim_C7_slice_shunt (model : TypedModel) (node : TypedNode)
    (axis : Nat) (stop : TDim) (i0 : OutletId) (prec : TypedNode)
    (infact outfact : TypedFact) (d : TDim)
    (h0 : node.inputs.get? 0 = some i0)
    (hprec : model.nodes.get? i0.node = some prec)
    (hin : ModelImpl.outlet_fact model i0 = .ok infact)
    (hdim : infact.shape.get? axis = some d)
    (hend : TDim.beq stop d = true)
    (hout : ModelImpl.outlet_fact model ⟨node.id, 0⟩ = .ok outfact)
    (hsame : TDim.beqList outfact.shape infact.shape = true) :
    Slice.declutter axis (TDim.Val 0) stop model node
      = .ok (some (sliceShuntPatchOf i0 infact node.id))
    ∧ (sliceShuntPatchOf i0 infact node.id).obliterate = []
    ∧ ∀ (target : TypedModel) i, i < target.nodes.length →
        opAt (((sliceShuntPatchOf i0 infact node.id).apply
          TypedOpKind.is_source TypedOpKind.dummy target).1) i
          = opAt target i := by
  refine ⟨?_, rfl, fun target i hi =>
    apply_ops_preserved TypedOpKind.is_source TypedOpKind.dummy _ target rfl i hi⟩
  unfold Slice.declutter
  rw [h0]
  dsimp only
  rw [hprec]
  dsimp only
  rw [hin]
  simp only [bind, Except.bind]
  rw [show TDim.beq (TDim.Val 0) (TDim.Val 0) = true from rfl]
  simp only [eq_self_iff_true, if_true]
  rw [hdim]
  simp only [bind, Except.bind, hend, eq_self_iff_true, if_true]
  unfold ModelPatch.shunt_one_op
  simp only [h0]
  unfold ModelPatch.tap_model ModelPatch.empty ModelImpl.empty
  rw [hin]
  simp only [bind, Except.bind, pure, Except.pure]
  unfold ModelPatch.shunt_outside
  rw [hout]
  simp only [bind, Except.bind]
  have hq : ModelImpl.outlet_fact
      ((⟨[], [], [], []⟩ : ModelImpl TypedFact TypedOpKind).add_node
        ("incoming-" ++ toString i0.node ++ "/" ++ toString i0.slot)
        TypedOpKind.source [infact]).1
      ⟨((⟨[], [], [], []⟩ : ModelImpl TypedFact TypedOpKind).add_node
        ("incoming-" ++ toString i0.node ++ "/" ++ toString i0.slot)
        TypedOpKind.source [infact]).2, 0⟩ = Except.ok infact := rfl
  rw [hq]
  simp only [bind, Except.bind, TypedFact.same_as, hsame, Bool.not_true,
    pure, Except.pure]
  rfl

/-- Witness for `claim_C7_slice_shunt` on the S4 model. -/
theorem claim_C7_slice_shunt_witness :
    Slice.declutter 1 (TDim.Val 0) (TDim.Val 5) sliceShuntModel
      ⟨1, "slice", [⟨0, 0⟩], .slice 1 (TDim.Val 0) (TDim.Val 5),
        [⟨⟨[TDim.Val 2, TDim.Val 5]⟩, []⟩]⟩
      = .ok (some (sliceShuntPatchOf ⟨0, 0⟩ ⟨[TDim.Val 2, TDim.Val 5]⟩ 1)) :=
  (claim_C7_slice_shunt sliceShuntModel
    ⟨1, "slice", [⟨0, 0⟩], .slice 1 (TDim.Val 0) (TDim.Val 5),
      [⟨⟨[TDim.Val 2, TDim.Val 5]⟩, []⟩]⟩
    1 (TDim.Val 5) ⟨0, 0⟩
    ⟨0, "input", [], .source, [⟨⟨[TDim.Val 2, TDim.Val 5]⟩, [⟨1, 0⟩]⟩]⟩
    ⟨[TDim.Val 2, TDim.Val 5]⟩ ⟨[TDim.Val 2, TDim.Val 5]⟩ (TDim.Val 5)
    rfl rfl rfl rfl rfl rfl rfl).1

/-! ### `Pad::pulsify` failure-semantics theorems (C5) -/

theorem all_enumFrom_imp {α : Type} (f : Nat × α → Bool) :
    ∀ (l : List α) (n : Nat), (List.enumFrom n l).all f = true →
      ∀ i x, l.get? i = some x → f (n + i, x) = true := by
  intro l
  induction l with
  | nil => intro n h i x hx; cases hx
  | cons a rest ih =>
    intro n h i x hx
    rw [List.enumFrom_cons] at h
    simp only [List.all_cons, Bool.and_eq_true] at h
    match i, hx with
    | 0, hx =>
      injection hx with hx
      subst hx
      simpa using h.1
    | i + 1, hx =>
      have h2 := ih (n + 1) h.2 i x hx
      rwa [show n + 1 + i = n + (i + 1) from by omega] at h2

theorem all_enum_imp {α : Type} (f : Nat × α → Bool) (l : List α)
    (h : l.enum.all f = true) :
    ∀ i x, l.get? i = some x → f (i, x) = true := by
  intro i x hx
  have h2 := all_enumFrom_imp f l 0 h i x hx
  rwa [Nat.zero_add] at h2

/-- C5: `Pad::pulsify` never silently reinterprets the op — it can only
succeed when none of the pulse-incorrect configurations is present. For
every pad op, node, target and mapping on which `pulsify` returns `Ok`
(with the resolved input fact and the stream-axis pads named by the
hypotheses), the mode is not `Reflect`, every non-stream axis has zero
padding, and in `Edge` mode the left padding is strictly smaller than the
pulse. Contrapositively, whenever the mode is `Reflect`, or the mode is
`Edge` with left padding `>= pulse` (in particular larger than the
pulse), or some non-stream axis has nonzero padding, `pulsify` returns an
error (the source's descriptive `bail!` messages, reproduced in the
embedding). -/
theorem claim_C5_pad_pulsify_rejections (self : Pad) (name : String)
    (node_inputs : List OutletId) (target : PulsedModel)
    (mapping : List (OutletId × OutletId)) (res : PulsedModel × List OutletId)
    (i0 input0 : OutletId) (fact : PulsedFact) (before after : Nat)
    (h : self.pulsify name node_inputs target mapping = .ok res)
    (h1 : node_inputs.get? 0 = some i0)
    (h2 : mapping.lookup i0 = some input0)
    (h3 : ModelImpl.outlet_fact target input0 = .ok fact)
    (h4 : self.pads.get? fact.axis = some (before, after)) :
    self.mode ≠ .reflect
    ∧ (∀ ax a b, self.pads.get? ax = some (a, b) → ax ≠ fact.axis →
        a = 0 ∧ b = 0)
    ∧ (self.mode = .edge → before < fact.pulse) := by
  unfold Pad.pulsify at h
  rw [h1] at h
  simp only [bind, Except.bind] at h
  rw [h2] at h
  simp only [h3] at h
  split at h
  · exact Except.noConfusion h
  case _ hall =>
    have hallt : (self.pads.enum.all (fun p =>
        p.1 == fact.axis || (p.2.1 == 0 && p.2.2 == 0))) = true := by
      revert hall
      cases self.pads.enum.all (fun p =>
        p.1 == fact.axis || (p.2.1 == 0 && p.2.2 == 0)) <;> simp
    have hzero : ∀ ax a b, self.pads.get? ax = some (a, b) →
        ax ≠ fact.axis → a = 0 ∧ b = 0 := by
      intro ax a b hget hne
      have hf := all_enum_imp _ _ hallt ax (a, b) hget
      simp only [Bool.or_eq_true, Bool.and_eq_true, beq_iff_eq] at hf
      rcases hf with hf | hf
      · exact absurd hf hne
      · exact hf
    split at h
    · exact Except.noConfusion h
    case _ ba hba =>
      rw [h4] at hba
      injection hba with hba
      subst hba
      split at h
      case _ c hmode =>
        refine ⟨?_, hzero, ?_⟩
        · rw [hmode]
          intro hc
          exact PadMode.noConfusion hc
        · intro hedge
          rw [hmode] at hedge
          exact PadMode.noConfusion hedge
      case _ hmode =>
        split at h
        case isTrue hlt =>
          refine ⟨?_, hzero, fun _ => hlt⟩
          rw [hmode]
          intro hc
          exact PadMode.noConfusion hc
        case isFalse hnlt => exact Except.noConfusion h
      case _ hmode => exact Except.noConfusion h

/-- Witness for C5: on a concrete constant-mode Pad over the pulsed source
model, pulsify succeeds and the theorem applies, yielding in particular
that the mode is not Reflect. -/
theorem claim_C5_pad_pulsify_rejections_witness :
    (Pad.mk [(2, 0)] (PadMode.constant 0)).mode ≠ PadMode.reflect :=
  (claim_C5_pad_pulsify_rejections ⟨[(2, 0)], .constant 0⟩ "pad" [⟨5, 0⟩]
    pulsedSourceModel [(⟨5, 0⟩, ⟨0, 0⟩)]
    (⟨[⟨0, "source", [], .source, [⟨⟨[4], 0, TDim.s, 0⟩, [⟨1, 0⟩]⟩]⟩,
       ⟨1, "pad.Delay", [⟨0, 0⟩], .delayOp ⟨[2], 0, 2, 0⟩,
        [⟨⟨[4], 0, TDim.s, 2⟩, [⟨2, 0⟩]⟩]⟩,
       ⟨2, "pad", [⟨1, 0⟩],
        .pulsePad ⟨0, 4, 2, 0, 2, TDim.Add [TDim.s, TDim.Val 2],
          .constant 0⟩,
        [⟨⟨[4], 0, TDim.Add [TDim.s, TDim.Val 2], 0⟩, []⟩]⟩],
      [⟨0, 0⟩], [⟨0, 0⟩], []⟩,
     [⟨2, 0⟩])
    ⟨5, 0⟩ ⟨0, 0⟩ ⟨[4], 0, TDim.s, 0⟩ 2 0 rfl rfl rfl rfl rfl).1

end Tract
